import Mathlib

/-!
Reaction-Diffusion-Simulator: the simulation core of `src/main.cpp`.

Shallow embedding of the Gray-Scott simulation core (the concentration buffer, `laplaceA`,
`laplaceB`, the update loop of `main`, `splat` and `resetConcentration`).

Modelling conventions.
* The program text is embedded once, over a record `FloatOps` that interprets the `float`
  literals, `+`, `-`, `*` and `<`.  Two interpretations are given:
  `binary32` is IEEE 754 single precision, with every literal, product, sum and difference
  rounded to nearest (ties to even), overflow to an infinity, and NaN; this is the arithmetic of
  the program (each operation evaluated in `float`, no fused multiply-add).  The sign of a zero
  is not tracked; no operation of the program can observe it.
  `exact` is arithmetic over `ℚ` without rounding, the reading under which the Gray-Scott
  formulas are usually written.
* The arguments `x`, `y`, `size` of `splat` are 32-bit `int`: the four sums and differences
  compared in `splat` are reduced modulo `2 ^ 32` into `[-2 ^ 31, 2 ^ 31)` (`wrap32`), the value
  that two's-complement hardware computes where C++ leaves signed overflow undefined.  Loop
  counters and buffer indices are mathematical integers; they stay far below `2 ^ 31` on every
  grid of at most 46340 × 46340 cells.
* `std::vector<std::pair<float, float>>` is a `List (α × α)`.  An access `array[idx]` outside the
  buffer has no defined behaviour in C++; here every access is checked and yields `none`, so a
  result `some _` certifies that every access made was inside the buffer.
* `for (int i = lo; i < hi; i++)` is `forRange lo hi`, which runs the body for
  `i = lo, lo + 1, ..., hi - 1` (no iteration when `hi ≤ lo`).
-/

namespace ReactionDiffusion

/-! ## Arithmetic -/

/-- A value of type `float`: a finite number, an infinity or NaN. -/
inductive F32 where
  | fin (q : ℚ)
  | pinf
  | ninf
  | nan
  deriving DecidableEq

/-- The integer nearest to `z`, the even one when `z` lies halfway between two integers. -/
def roundHalfEven (z : ℚ) : Int :=
  if z - ⌊z⌋ < 1 / 2 then ⌊z⌋
  else if 1 / 2 < z - ⌊z⌋ then ⌊z⌋ + 1
  else if ⌊z⌋ % 2 = 0 then ⌊z⌋ else ⌊z⌋ + 1

/-- The exponent `e` of the binary32 spacing `2 ^ e / 2 ^ 149` around `x`: the least `e ≥ 0`
with `|x| < 2 ^ (e + 24) / 2 ^ 149`, searched upwards from the spacing `2 ^ (-149)` of the
subnormal numbers. -/
def quantumExp (x : ℚ) : Nat → Nat → Nat
  | 0, e => e
  | fuel + 1, e => if |x| * 2 ^ 149 < 2 ^ (e + 24) then e else quantumExp x fuel (e + 1)

/-- The multiple of the binary32 spacing around `x` that is nearest to `x`, the one with an even
multiplier when `x` lies halfway between two of them. -/
def roundToQuantum (x : ℚ) : ℚ :=
  let q : ℚ := 2 ^ quantumExp x 254 0 / 2 ^ 149
  roundHalfEven (x / q) * q

/-- Rounding of a real number to binary32, to nearest with ties to even: the nearest multiple of
the spacing around `x`, and an infinity when that multiple reaches `2 ^ 128`. -/
def rn (x : ℚ) : F32 :=
  let r : ℚ := roundToQuantum x
  if 2 ^ 128 ≤ r then F32.pinf else if r ≤ -(2 ^ 128) then F32.ninf else F32.fin r

/-- IEEE negation. -/
def F32.neg : F32 → F32
  | F32.fin a => F32.fin (-a)
  | F32.pinf => F32.ninf
  | F32.ninf => F32.pinf
  | F32.nan => F32.nan

/-- IEEE addition: the rounded sum of finite values; `∞ + (-∞)` is NaN. -/
def F32.add : F32 → F32 → F32
  | F32.fin a, F32.fin b => rn (a + b)
  | F32.nan, _ => F32.nan
  | _, F32.nan => F32.nan
  | F32.pinf, F32.ninf => F32.nan
  | F32.ninf, F32.pinf => F32.nan
  | F32.pinf, _ => F32.pinf
  | _, F32.pinf => F32.pinf
  | F32.ninf, _ => F32.ninf
  | _, F32.ninf => F32.ninf

/-- IEEE subtraction, `a - b = a + (-b)`. -/
def F32.sub (a b : F32) : F32 := F32.add a (F32.neg b)

/-- The product of an infinity (`+∞` when `positive`, else `-∞`) with the finite value `b`. -/
def F32.infTimes (positive : Bool) (b : ℚ) : F32 :=
  if b = 0 then F32.nan
  else if decide (0 < b) = positive then F32.pinf else F32.ninf

/-- IEEE multiplication: the rounded product of finite values; `0 * ∞` is NaN. -/
def F32.mul : F32 → F32 → F32
  | F32.fin a, F32.fin b => rn (a * b)
  | F32.nan, _ => F32.nan
  | _, F32.nan => F32.nan
  | F32.pinf, F32.fin b => F32.infTimes true b
  | F32.ninf, F32.fin b => F32.infTimes false b
  | F32.fin a, F32.pinf => F32.infTimes true a
  | F32.fin a, F32.ninf => F32.infTimes false a
  | F32.pinf, F32.pinf => F32.pinf
  | F32.ninf, F32.ninf => F32.pinf
  | F32.pinf, F32.ninf => F32.ninf
  | F32.ninf, F32.pinf => F32.ninf

/-- IEEE comparison `a < b`: false as soon as one side is NaN. -/
def F32.lt : F32 → F32 → Bool
  | F32.fin a, F32.fin b => decide (a < b)
  | F32.nan, _ => false
  | _, F32.nan => false
  | _, F32.ninf => false
  | F32.pinf, _ => false
  | F32.ninf, _ => true
  | F32.fin _, F32.pinf => true

/-- An interpretation of the `float` operations the program uses: literals, `+`, `-`, `*`, `<`
(`a > b` is `b < a`). -/
structure FloatOps (α : Type) where
  lit : ℚ → α
  add : α → α → α
  sub : α → α → α
  mul : α → α → α
  lt : α → α → Bool

/-- IEEE 754 binary32, the arithmetic of the program. -/
def binary32 : FloatOps F32 := ⟨rn, F32.add, F32.sub, F32.mul, F32.lt⟩

/-- Exact arithmetic over the rationals: no rounding, no infinities, no NaN. -/
def exact : FloatOps ℚ :=
  ⟨fun q => q, fun a b => a + b, fun a b => a - b, fun a b => a * b, fun a b => decide (a < b)⟩

/-- The 32-bit two's-complement value of an integer. -/
def wrap32 (z : Int) : Int := (z + 2147483648) % 4294967296 - 2147483648

/-- The real number a finite `float` stands for (`0` for an infinity or NaN). -/
def F32.toRat : F32 → ℚ
  | F32.fin q => q
  | _ => 0

/-- A `float` that is a number in `[0, 1]`. -/
def F32.inUnit : F32 → Prop
  | F32.fin q => 0 ≤ q ∧ q ≤ 1
  | _ => False

/-- A `float` that is a number in `[0, 1]` or NaN. -/
def F32.inUnitOrNaN : F32 → Prop
  | F32.fin q => 0 ≤ q ∧ q ≤ 1
  | F32.nan => True
  | _ => False

/-! ## The program -/

/-- One grid cell: the pair `(first, second)` = (concentration of A, concentration of B). -/
abbrev Cell (α : Type) := α × α

/-- The concentration buffer `std::vector<std::pair<float, float>>`. -/
abbrev Field (α : Type) := List (Cell α)

/-- The simulation parameters, the globals `Da`, `Db`, `f`, `k`, `dt`. -/
structure Params (α : Type) where
  Da : α
  Db : α
  f : α
  k : α
  dt : α

/-- The linear index `i * gridSizeY + j` used by every access to the buffer. -/
def cellIndex (gridSizeY i j : Int) : Int := i * gridSizeY + j

/-- Checked read `array[idx]`. -/
def readCell {α : Type} (array : Field α) (idx : Int) : Option (Cell α) :=
  if 0 ≤ idx then array[idx.toNat]? else none

/-- Checked read `array[idx].first`. -/
def readFirst {α : Type} (array : Field α) (idx : Int) : Option α :=
  (readCell array idx).map Prod.fst

/-- Checked read `array[idx].second`. -/
def readSecond {α : Type} (array : Field α) (idx : Int) : Option α :=
  (readCell array idx).map Prod.snd

/-- Checked write `array[idx].first = v`. -/
def writeFirst {α : Type} (array : Field α) (idx : Int) (v : α) : Option (Field α) :=
  match readCell array idx with
  | some c => some (array.set idx.toNat (v, c.2))
  | none => none

/-- Checked write `array[idx].second = v`. -/
def writeSecond {α : Type} (array : Field α) (idx : Int) (v : α) : Option (Field α) :=
  match readCell array idx with
  | some c => some (array.set idx.toNat (c.1, v))
  | none => none

/-- Runs `body i` for `k` consecutive values of the counter, starting at `i`. -/
def forLoop {σ : Type} (body : Int → σ → Option σ) : Nat → Int → σ → Option σ
  | 0, _, s => some s
  | k + 1, i, s =>
    match body i s with
    | some s' => forLoop body k (i + 1) s'
    | none => none

/-- The loop `for (int i = lo; i < hi; i++) body`. -/
def forRange {σ : Type} (lo hi : Int) (body : Int → σ → Option σ) (s : σ) : Option σ :=
  forLoop body (hi - lo).toNat lo s

/-- The accumulation `total` of `laplaceA` / `laplaceB`, in the order of the source: `total = 0`,
then `total += v * w` for the centre (`-1.0f`), left, right, up, down (`0.2f`), up-left,
down-left, up-right, down-right (`0.05f`). -/
def laplaceTotal {α : Type} (ar : FloatOps α) (c l r u d ul dl ur dr : α) : α :=
  let total : α := ar.lit 0
  let total := ar.add total (ar.mul c (ar.lit (-1)))
  let total := ar.add total (ar.mul l (ar.lit (1 / 5)))
  let total := ar.add total (ar.mul r (ar.lit (1 / 5)))
  let total := ar.add total (ar.mul u (ar.lit (1 / 5)))
  let total := ar.add total (ar.mul d (ar.lit (1 / 5)))
  let total := ar.add total (ar.mul ul (ar.lit (1 / 20)))
  let total := ar.add total (ar.mul dl (ar.lit (1 / 20)))
  let total := ar.add total (ar.mul ur (ar.lit (1 / 20)))
  let total := ar.add total (ar.mul dr (ar.lit (1 / 20)))
  total

/-- The function `laplaceA(y, x, array)`. -/
def laplaceA {α : Type} (ar : FloatOps α) (gridSizeY : Int) (y x : Int) (array : Field α) :
    Option α := do
  let c ← readFirst array (y * gridSizeY + x)
  let l ← readFirst array (y * gridSizeY + (x - 1))
  let r ← readFirst array (y * gridSizeY + (x + 1))
  let u ← readFirst array ((y - 1) * gridSizeY + x)
  let d ← readFirst array ((y + 1) * gridSizeY + x)
  let ul ← readFirst array ((y - 1) * gridSizeY + (x - 1))
  let dl ← readFirst array ((y + 1) * gridSizeY + (x - 1))
  let ur ← readFirst array ((y - 1) * gridSizeY + (x + 1))
  let dr ← readFirst array ((y + 1) * gridSizeY + (x + 1))
  pure (laplaceTotal ar c l r u d ul dl ur dr)

/-- The function `laplaceB(y, x, array)`. -/
def laplaceB {α : Type} (ar : FloatOps α) (gridSizeY : Int) (y x : Int) (array : Field α) :
    Option α := do
  let c ← readSecond array (y * gridSizeY + x)
  let l ← readSecond array (y * gridSizeY + (x - 1))
  let r ← readSecond array (y * gridSizeY + (x + 1))
  let u ← readSecond array ((y - 1) * gridSizeY + x)
  let d ← readSecond array ((y + 1) * gridSizeY + x)
  let ul ← readSecond array ((y - 1) * gridSizeY + (x - 1))
  let dl ← readSecond array ((y + 1) * gridSizeY + (x - 1))
  let ur ← readSecond array ((y - 1) * gridSizeY + (x + 1))
  let dr ← readSecond array ((y + 1) * gridSizeY + (x + 1))
  pure (laplaceTotal ar c l r u d ul dl ur dr)

/-- The two statements `if(A > 1.0f) A = 1.0f; if(A < 0.0f) A = 0.0f;`. -/
def constrain {α : Type} (ar : FloatOps α) (v : α) : α :=
  let v := if ar.lt (ar.lit 1) v then ar.lit 1 else v
  let v := if ar.lt v (ar.lit 0) then ar.lit 0 else v
  v

/-- The new value of A: `a + ((Da * lapA) - (a * b * b) + (f*(1 - a))*dt)`, constrained. -/
def newA {α : Type} (ar : FloatOps α) (p : Params α) (a b lapA : α) : α :=
  constrain ar
    (ar.add a
      (ar.add (ar.sub (ar.mul p.Da lapA) (ar.mul (ar.mul a b) b))
        (ar.mul (ar.mul p.f (ar.sub (ar.lit 1) a)) p.dt)))

/-- The new value of B: `b + ((Db * lapB) + (a * b * b) - (b*(k + f))*dt)`, constrained. -/
def newB {α : Type} (ar : FloatOps α) (p : Params α) (a b lapB : α) : α :=
  constrain ar
    (ar.add b
      (ar.sub (ar.add (ar.mul p.Db lapB) (ar.mul (ar.mul a b) b))
        (ar.mul (ar.mul b (ar.add p.k p.f)) p.dt)))

/-- The body of the update loop of `main` for the cell `(i, j)`. -/
def updateCell {α : Type} (ar : FloatOps α) (p : Params α) (gridSizeY : Int) (i j : Int)
    (concentration : Field α) : Option (Field α) := do
  let a ← readFirst concentration (i * gridSizeY + j)
  let b ← readSecond concentration (i * gridSizeY + j)
  let lapA ← laplaceA ar gridSizeY i j concentration
  let lapB ← laplaceB ar gridSizeY i j concentration
  let A := newA ar p a b lapA
  let B := newB ar p a b lapB
  let concentration ← writeFirst concentration (i * gridSizeY + j) A
  writeSecond concentration (i * gridSizeY + j) B

/-- The loop nest of the update loop of `main`, with the loop body as a parameter:
`for (i = 1; i < gridSizeY-1; i++) for (j = 1; j < gridSizeX-1; j++) body(i, j)`. -/
def stepWith {α : Type} (body : Int → Int → Field α → Option (Field α))
    (gridSizeX gridSizeY : Int) (concentration : Field α) : Option (Field α) :=
  forRange 1 (gridSizeY - 1)
    (fun i c => forRange 1 (gridSizeX - 1) (fun j c => body i j c) c) concentration

/-- One simulation step: the update loop of `main`. -/
def step {α : Type} (ar : FloatOps α) (p : Params α) (gridSizeX gridSizeY : Int)
    (concentration : Field α) : Option (Field α) :=
  stepWith (updateCell ar p gridSizeY) gridSizeX gridSizeY concentration

/-- The function `splat(array, x, y, size)`; `y - size`, `x - size`, `y + size` and `x + size`
are 32-bit `int` values. -/
def splat {α : Type} (ar : FloatOps α) (gridSizeX gridSizeY : Int) (array : Field α)
    (x y size : Int) : Option (Field α) :=
  forRange 0 gridSizeY
    (fun i array => forRange 0 gridSizeX
      (fun j array =>
        if (i > wrap32 (y - size) ∧ j > wrap32 (x - size))
            ∧ (i < wrap32 (y + size) ∧ j < wrap32 (x + size)) then do
          let array ← writeFirst array (i * gridSizeY + j) (ar.lit 0)
          writeSecond array (i * gridSizeY + j) (ar.lit 1)
        else some array) array) array

/-- The function `resetConcentration()`. -/
def resetConcentration {α : Type} (ar : FloatOps α) (gridSizeX gridSizeY : Int)
    (concentration : Field α) : Option (Field α) :=
  forRange 0 gridSizeY
    (fun i c => forRange 0 gridSizeX
      (fun j c => do
        let c ← writeFirst c (i * gridSizeY + j) (ar.lit 1)
        writeSecond c (i * gridSizeY + j) (ar.lit 0)) c) concentration

/-- The initial values of the globals: `Da = 1.0f`, `Db = 0.5f`, `f = 0.012f`, `k = 0.053f`,
`dt = 1.0f`. -/
def defaultParams {α : Type} (ar : FloatOps α) : Params α :=
  ⟨ar.lit 1, ar.lit (1 / 2), ar.lit (3 / 250), ar.lit (53 / 1000), ar.lit 1⟩

/-- What can happen to the buffer after the initial reset: a simulation step of the render loop
(with the parameter values of that moment) or a call of `splat`. -/
inductive Event (α : Type) where
  | step (p : Params α)
  | splat (x y size : Int)

/-- Runs a sequence of steps and splats on the buffer. -/
def runEvents {α : Type} (ar : FloatOps α) (gridSizeX gridSizeY : Int) :
    List (Event α) → Field α → Option (Field α)
  | [], c => some c
  | Event.step p :: es, c =>
    match step ar p gridSizeX gridSizeY c with
    | some c' => runEvents ar gridSizeX gridSizeY es c'
    | none => none
  | Event.splat x y size :: es, c =>
    match splat ar gridSizeX gridSizeY c x y size with
    | some c' => runEvents ar gridSizeX gridSizeY es c'
    | none => none

/-- The cell stored for `(row, col)`, with `(0, 0)` standing for a position outside the buffer. -/
def cellAt {α : Type} (ar : FloatOps α) (gridSizeY : Int) (array : Field α) (row col : Int) :
    Cell α :=
  (readCell array (row * gridSizeY + col)).getD (ar.lit 0, ar.lit 0)

/-- The value `laplaceA` computes at `(y, x)`, read through `cellAt`. -/
def lapA {α : Type} (ar : FloatOps α) (gridSizeY : Int) (array : Field α) (y x : Int) : α :=
  laplaceTotal ar (cellAt ar gridSizeY array y x).1
    (cellAt ar gridSizeY array y (x - 1)).1 (cellAt ar gridSizeY array y (x + 1)).1
    (cellAt ar gridSizeY array (y - 1) x).1 (cellAt ar gridSizeY array (y + 1) x).1
    (cellAt ar gridSizeY array (y - 1) (x - 1)).1 (cellAt ar gridSizeY array (y + 1) (x - 1)).1
    (cellAt ar gridSizeY array (y - 1) (x + 1)).1 (cellAt ar gridSizeY array (y + 1) (x + 1)).1

/-- The value `laplaceB` computes at `(y, x)`, read through `cellAt`. -/
def lapB {α : Type} (ar : FloatOps α) (gridSizeY : Int) (array : Field α) (y x : Int) : α :=
  laplaceTotal ar (cellAt ar gridSizeY array y x).2
    (cellAt ar gridSizeY array y (x - 1)).2 (cellAt ar gridSizeY array y (x + 1)).2
    (cellAt ar gridSizeY array (y - 1) x).2 (cellAt ar gridSizeY array (y + 1) x).2
    (cellAt ar gridSizeY array (y - 1) (x - 1)).2 (cellAt ar gridSizeY array (y + 1) (x - 1)).2
    (cellAt ar gridSizeY array (y - 1) (x + 1)).2 (cellAt ar gridSizeY array (y + 1) (x + 1)).2

/-- The pair `(A, B)` that the loop body stores for the cell `(i, j)` of the current buffer. -/
def updatedCell {α : Type} (ar : FloatOps α) (p : Params α) (gridSizeY : Int) (array : Field α)
    (i j : Int) : Cell α :=
  (newA ar p (cellAt ar gridSizeY array i j).1 (cellAt ar gridSizeY array i j).2
      (lapA ar gridSizeY array i j),
   newB ar p (cellAt ar gridSizeY array i j).1 (cellAt ar gridSizeY array i j).2
      (lapB ar gridSizeY array i j))

/-- The mixed field seen by the Laplacians of the cell `(i, j)` during an in-place sweep: the
neighbours `(i-1, j-1)`, `(i-1, j)`, `(i-1, j+1)` and `(i, j-1)` are taken from the post-step
buffer `Q`, every other position from the pre-step buffer `P`. -/
def mixedField {α : Type} (ar : FloatOps α) (gridSizeY : Int) (P Q : Field α) (i j : Int)
    (r c : Int) : Cell α :=
  if (r = i - 1 ∧ (c = j - 1 ∨ c = j ∨ c = j + 1)) ∨ (r = i ∧ c = j - 1) then
    cellAt ar gridSizeY Q r c
  else cellAt ar gridSizeY P r c

/-- The accumulation of `laplaceA` / `laplaceB` applied to the 3 × 3 neighbourhood of `(y, x)` in
a scalar grid `g`. -/
def stencil {α : Type} (ar : FloatOps α) (g : Int → Int → α) (y x : Int) : α :=
  laplaceTotal ar (g y x) (g y (x - 1)) (g y (x + 1)) (g (y - 1) x) (g (y + 1) x)
    (g (y - 1) (x - 1)) (g (y + 1) (x - 1)) (g (y - 1) (x + 1)) (g (y + 1) (x + 1))

/-- The pair the in-place sweep leaves in the interior cell `(i, j)`: the update formulas of the
loop body, with `a` and `b` read from the pre-step buffer `P` and both Laplacians taken over
the mixed field of `P` and the post-step buffer `Q`. -/
def sweepCell {α : Type} (ar : FloatOps α) (p : Params α) (gridSizeY : Int) (P Q : Field α)
    (i j : Int) : Cell α :=
  (newA ar p (cellAt ar gridSizeY P i j).1 (cellAt ar gridSizeY P i j).2
      (stencil ar (fun r c => (mixedField ar gridSizeY P Q i j r c).1) i j),
   newB ar p (cellAt ar gridSizeY P i j).1 (cellAt ar gridSizeY P i j).2
      (stencil ar (fun r c => (mixedField ar gridSizeY P Q i j r c).2) i j))

/-- The state of the sweep just before the loop body runs for `(i, j)` on the `n × n` grid with
pre-step buffer `P`: cells not yet visited still hold their pre-step value, and every interior
cell visited earlier (row-major order) holds its `sweepCell` value. -/
def SweepInv {α : Type} (ar : FloatOps α) (p : Params α) (n : Nat) (P : Field α) (i j : Int)
    (s : Field α) : Prop :=
  s.length = n * n ∧
  (∀ r c : Int, 0 ≤ r → r < n → 0 ≤ c → c < n →
    ¬ (1 ≤ r ∧ r + 1 < n ∧ 1 ≤ c ∧ c + 1 < n ∧ (r < i ∨ (r = i ∧ c < j))) →
    cellAt ar n s r c = cellAt ar n P r c) ∧
  (∀ r c : Int, 1 ≤ r → r + 1 < n → 1 ≤ c → c + 1 < n → (r < i ∨ (r = i ∧ c < j)) →
    cellAt ar n s r c = sweepCell ar p n P s r c)

/-- The clamp of the reference update rule: `clamp v lo hi` is `v` limited to `[lo, hi]`. -/
def clamp (v lo hi : ℚ) : ℚ := max lo (min v hi)

/-- The 9-point Laplacian of a scalar grid `g` at `(y, x)` in exact arithmetic: weight `-1` at
the centre, `0.2` at the four orthogonal neighbours and `0.05` at the four diagonal
neighbours. -/
def laplacian9 (g : Int → Int → ℚ) (y x : Int) : ℚ :=
  -1 * g y x
    + (1 / 5) * (g (y - 1) x + g (y + 1) x + g y (x - 1) + g y (x + 1))
    + (1 / 20) * (g (y - 1) (x - 1) + g (y - 1) (x + 1) + g (y + 1) (x - 1) + g (y + 1) (x + 1))

/-- The Gray-Scott update of one cell in exact arithmetic, as the specification writes it:
`(clamp (a + (Da·LA − a·b·b + f·(1−a)·dt)) 0 1, clamp (b + (Db·LB + a·b·b − b·(k+f)·dt)) 0 1)`. -/
def grayScott (p : Params ℚ) (a b LA LB : ℚ) : Cell ℚ :=
  (clamp (a + (p.Da * LA - a * b * b + p.f * (1 - a) * p.dt)) 0 1,
   clamp (b + (p.Db * LB + a * b * b - b * (p.k + p.f) * p.dt)) 0 1)

/-- The double-buffered reference update of the cell `(row, col)` of an `n × n` grid: an interior
cell (`row`, `col` in `[1, n-2]`) gets the clamped Gray-Scott values computed with `a`, `b` and
both Laplacians read from the pre-step buffer `P`; any other cell keeps its value. -/
def referenceCell (p : Params ℚ) (n : Nat) (P : Field ℚ) (row col : Int) : Cell ℚ :=
  if 1 ≤ row ∧ row ≤ (n : Int) - 2 ∧ 1 ≤ col ∧ col ≤ (n : Int) - 2 then
    grayScott p (cellAt exact n P row col).1 (cellAt exact n P row col).2
      (laplacian9 (fun r c => (cellAt exact n P r c).1) row col)
      (laplacian9 (fun r c => (cellAt exact n P r c).2) row col)
  else cellAt exact n P row col

/-- The double-buffered reference step on an `n × n` grid: the new buffer is computed cell by
cell from the pre-step buffer `P` only. -/
def referenceStep (p : Params ℚ) (n : Nat) (P : Field ℚ) : Field ℚ :=
  (List.range (n * n)).map
    (fun k => referenceCell p n P ((k / n : Nat) : Int) ((k % n : Nat) : Int))

/-- The real numbers stored in a buffer of `float` pairs. -/
def toExactField (array : Field F32) : Field ℚ :=
  array.map (fun c => (c.1.toRat, c.2.toRat))

/-- The real numbers that `float` parameters stand for. -/
def toExactParams (p : Params F32) : Params ℚ :=
  ⟨p.Da.toRat, p.Db.toRat, p.f.toRat, p.k.toRat, p.dt.toRat⟩

/-- Both concentrations of a cell of rationals lie in `[0, 1]`. -/
def inUnit (cell : Cell ℚ) : Prop := 0 ≤ cell.1 ∧ cell.1 ≤ 1 ∧ 0 ≤ cell.2 ∧ cell.2 ≤ 1

/-- The 4 × 4 buffer reached from the reset state by `splat` with centre `(1, 1)` and size `1`:
every cell is `(1, 0)` except the cell `(1, 1)`, which is `(0, 1)`. -/
def splatted4 {α : Type} (ar : FloatOps α) : Field α :=
  [(ar.lit 1, ar.lit 0), (ar.lit 1, ar.lit 0), (ar.lit 1, ar.lit 0), (ar.lit 1, ar.lit 0),
   (ar.lit 1, ar.lit 0), (ar.lit 0, ar.lit 1), (ar.lit 1, ar.lit 0), (ar.lit 1, ar.lit 0),
   (ar.lit 1, ar.lit 0), (ar.lit 1, ar.lit 0), (ar.lit 1, ar.lit 0), (ar.lit 1, ar.lit 0),
   (ar.lit 1, ar.lit 0), (ar.lit 1, ar.lit 0), (ar.lit 1, ar.lit 0), (ar.lit 1, ar.lit 0)]

/-- The 10 × 10 buffer whose only nonzero cell is `(5, 5)`, where both channels are `1`. -/
def impulse10 {α : Type} (ar : FloatOps α) : Field α :=
  (List.replicate 100 (ar.lit 0, ar.lit 0)).set 55 (ar.lit 1, ar.lit 1)

/-- The uniform buffer of `m` cells `(1, 0)`, the state after `resetConcentration`. -/
def uniform {α : Type} (ar : FloatOps α) (m : Nat) : Field α :=
  List.replicate m (ar.lit 1, ar.lit 0)

/-- The buffer that one binary32 step with the initial parameter values produces from
`splatted4`. -/
def splatted4Stepped : Field F32 :=
  [(F32.fin 1, F32.fin 0), (F32.fin 1, F32.fin 0), (F32.fin 1, F32.fin 0), (F32.fin 1, F32.fin 0),
   (F32.fin 1, F32.fin 0), (F32.fin 1, F32.fin (7298089 / 16777216)),
   (F32.fin (16777215 / 16777216), F32.fin (11676943 / 268435456)), (F32.fin 1, F32.fin 0),
   (F32.fin 1, F32.fin 0), (F32.fin (16777215 / 16777216), F32.fin (11968867 / 268435456)),
   (F32.fin (16777215 / 16777216), F32.fin (5283817 / 268435456)), (F32.fin 1, F32.fin 0),
   (F32.fin 1, F32.fin 0), (F32.fin 1, F32.fin 0), (F32.fin 1, F32.fin 0), (F32.fin 1, F32.fin 0)]

/-- An integer that a 32-bit `int` can hold. -/
def inInt32 (z : Int) : Prop := -2147483648 ≤ z ∧ z ≤ 2147483647

/-- A finite `float` of magnitude at most `B`. -/
def F32.absLe (B : ℚ) : F32 → Prop
  | F32.fin q => |q| ≤ B
  | _ => False

/-- Parameter values that are finite and of magnitude at most `2 ^ 30`; the program's values
(`Da = 1`, `Db = 0.5`, `dt = 1`, `f` in `[0, 0.3]`, `k` in `[0, 0.08]`) are of this kind. -/
def boundedParams (p : Params F32) : Prop :=
  F32.absLe (2 ^ 30) p.Da ∧ F32.absLe (2 ^ 30) p.Db ∧ F32.absLe (2 ^ 30) p.f ∧
    F32.absLe (2 ^ 30) p.k ∧ F32.absLe (2 ^ 30) p.dt

/-- An event whose parameter values, if it is a step, are bounded. -/
def boundedEvent : Event F32 → Prop
  | Event.step p => boundedParams p
  | Event.splat _ _ _ => True

/-- Parameter values that are finite with `|Da|`, `|Db|` and `|dt|` at most `1` and `|f|`, `|k|`
at most `1/2`; the program's values (`Da = 1`, `Db = 0.5`, `dt = 1`, `f` in `[0, 0.3]`, `k` in
`[0, 0.08]`) are of this kind. -/
def unitParams (p : Params F32) : Prop :=
  F32.absLe 1 p.Da ∧ F32.absLe 1 p.Db ∧ F32.absLe (1 / 2) p.f ∧ F32.absLe (1 / 2) p.k ∧
    F32.absLe 1 p.dt

/-- The update formulas evaluated in exact arithmetic on the numbers held by binary32 buffers:
`grayScott` applied to the real values of the parameters, of the cell `(i, j)` of the pre-step
buffer `P`, and of the mixed field of `P` and the post-step buffer `Q`. -/
def formulaCell (p : Params F32) (gridSizeY : Int) (P Q : Field F32) (i j : Int) : Cell ℚ :=
  grayScott (toExactParams p)
    (cellAt binary32 gridSizeY P i j).1.toRat (cellAt binary32 gridSizeY P i j).2.toRat
    (laplacian9 (fun r c => (mixedField binary32 gridSizeY P Q i j r c).1.toRat) i j)
    (laplacian9 (fun r c => (mixedField binary32 gridSizeY P Q i j r c).2.toRat) i j)


/-! ## Rounding -/

theorem roundHalfEven_bounds (z : ℚ) : ⌊z⌋ ≤ roundHalfEven z ∧ roundHalfEven z ≤ ⌊z⌋ + 1 := by
  unfold roundHalfEven
  split_ifs <;> omega

theorem roundHalfEven_intCast (k : Int) : roundHalfEven (k : ℚ) = k := by
  unfold roundHalfEven
  simp

theorem roundHalfEven_mono (z w : ℚ) (h : z ≤ w) : roundHalfEven z ≤ roundHalfEven w := by
  have hfl : ⌊z⌋ ≤ ⌊w⌋ := Int.floor_mono h
  rcases lt_or_eq_of_le hfl with hlt | heq
  · have h1 := (roundHalfEven_bounds z).2
    have h2 := (roundHalfEven_bounds w).1
    omega
  · unfold roundHalfEven
    rw [heq]
    split_ifs <;> first | omega | linarith

theorem roundHalfEven_neg (z : ℚ) : roundHalfEven (-z) = -roundHalfEven z := by
  have hk1 : (⌊z⌋ : ℚ) ≤ z := Int.floor_le z
  have hk2 : z < ⌊z⌋ + 1 := Int.lt_floor_add_one z
  by_cases hz : z = ⌊z⌋
  · have : -z = ((-⌊z⌋ : Int) : ℚ) := by push_cast; rw [← hz]
    rw [this, roundHalfEven_intCast]
    conv_rhs => rw [hz, roundHalfEven_intCast]
  · have hlt : (⌊z⌋ : ℚ) < z := lt_of_le_of_ne hk1 (fun h => hz h.symm)
    have hfl : ⌊-z⌋ = -⌊z⌋ - 1 := by
      rw [Int.floor_eq_iff]
      push_cast
      constructor <;> linarith
    unfold roundHalfEven
    rw [hfl]
    push_cast
    split_ifs <;> first | omega | linarith

theorem quantumExp_ge (x : ℚ) : ∀ (fuel e : Nat), e ≤ quantumExp x fuel e := by
  intro fuel
  induction fuel with
  | zero => intro e; exact le_refl _
  | succ fuel ih =>
    intro e
    unfold quantumExp
    split_ifs
    · exact le_refl _
    · exact le_trans (Nat.le_succ e) (ih (e + 1))

theorem quantumExp_le (x : ℚ) : ∀ (fuel e : Nat), quantumExp x fuel e ≤ e + fuel := by
  intro fuel
  induction fuel with
  | zero => intro e; exact le_refl _
  | succ fuel ih =>
    intro e
    unfold quantumExp
    split_ifs
    · omega
    · have := ih (e + 1); omega

/-- Unless the search ran out of fuel, `x` is below the top of the binade found. -/
theorem quantumExp_upper (x : ℚ) : ∀ (fuel e : Nat), quantumExp x fuel e < e + fuel →
    |x| * 2 ^ 149 < 2 ^ (quantumExp x fuel e + 24) := by
  intro fuel
  induction fuel with
  | zero => intro e h; simp [quantumExp] at h
  | succ fuel ih =>
    intro e h
    unfold quantumExp at h ⊢
    split_ifs at h ⊢ with hc
    · exact hc
    · exact ih (e + 1) (by omega)

/-- Above the starting exponent, `x` is at least the bottom of the binade found. -/
theorem quantumExp_lower (x : ℚ) : ∀ (fuel e : Nat), e < quantumExp x fuel e →
    (2 : ℚ) ^ (quantumExp x fuel e + 23) ≤ |x| * 2 ^ 149 := by
  intro fuel
  induction fuel with
  | zero => intro e h; simp [quantumExp] at h
  | succ fuel ih =>
    intro e h
    unfold quantumExp at h ⊢
    split_ifs at h ⊢ with hc
    · omega
    · rcases Nat.lt_or_ge (e + 1) (quantumExp x fuel (e + 1)) with h1 | h1
      · exact ih (e + 1) h1
      · have h2 := quantumExp_ge x fuel (e + 1)
        have h3 : quantumExp x fuel (e + 1) = e + 1 := le_antisymm h1 h2
        rw [h3]
        exact not_lt.mp hc

theorem quantumExp_mono (x y : ℚ) (h : |x| ≤ |y|) (fuel e : Nat) :
    quantumExp x fuel e ≤ quantumExp y fuel e := by
  by_contra hlt
  push_neg at hlt
  have hy := quantumExp_upper y fuel e (by have := quantumExp_le x fuel e; omega)
  have hx := quantumExp_lower x fuel e (by have := quantumExp_ge y fuel e; omega)
  have hpow : (2 : ℚ) ^ (quantumExp y fuel e + 24) ≤ 2 ^ (quantumExp x fuel e + 23) :=
    pow_le_pow_right₀ (by norm_num) (by omega)
  have : |x| * 2 ^ 149 ≤ |y| * 2 ^ 149 := by
    apply mul_le_mul_of_nonneg_right h; positivity
  linarith

theorem quantumExp_congr (x y : ℚ) (h : |x| = |y|) (fuel e : Nat) :
    quantumExp x fuel e = quantumExp y fuel e :=
  le_antisymm (quantumExp_mono x y (le_of_eq h) fuel e)
    (quantumExp_mono y x (le_of_eq h.symm) fuel e)

theorem roundToQuantum_neg (x : ℚ) : roundToQuantum (-x) = -roundToQuantum x := by
  unfold roundToQuantum
  simp only
  rw [quantumExp_congr (-x) x (abs_neg x), neg_div, roundHalfEven_neg]
  push_cast
  ring

theorem roundToQuantum_nonneg (x : ℚ) (hx : 0 ≤ x) : 0 ≤ roundToQuantum x := by
  unfold roundToQuantum
  simp only
  have hq : (0 : ℚ) < 2 ^ quantumExp x 254 0 / 2 ^ 149 := by positivity
  have h0 : roundHalfEven ((0 : Int) : ℚ) ≤ roundHalfEven (x / (2 ^ quantumExp x 254 0 / 2 ^ 149)) :=
    roundHalfEven_mono _ _ (by push_cast; exact div_nonneg hx (le_of_lt hq))
  rw [roundHalfEven_intCast] at h0
  exact mul_nonneg (by exact_mod_cast h0) (le_of_lt hq)

theorem roundToQuantum_mono_nonneg (x y : ℚ) (hx : 0 ≤ x) (h : x ≤ y) :
    roundToQuantum x ≤ roundToQuantum y := by
  have hy : 0 ≤ y := le_trans hx h
  have hle : quantumExp x 254 0 ≤ quantumExp y 254 0 :=
    quantumExp_mono x y (by rw [abs_of_nonneg hx, abs_of_nonneg hy]; exact h) 254 0
  have hqx : (0 : ℚ) < 2 ^ quantumExp x 254 0 / 2 ^ 149 := by positivity
  have hqy : (0 : ℚ) < 2 ^ quantumExp y 254 0 / 2 ^ 149 := by positivity
  rcases eq_or_lt_of_le hle with heq | hlt
  · unfold roundToQuantum
    simp only
    rw [heq]
    exact mul_le_mul_of_nonneg_right
      (by exact_mod_cast roundHalfEven_mono _ _ (div_le_div_of_nonneg_right h (le_of_lt hqy)))
      (le_of_lt hqy)
  · -- `y` lies in a higher binade than `x`
    have hyl := quantumExp_lower y 254 0 (by omega)
    rw [abs_of_nonneg hy] at hyl
    have hxu := quantumExp_upper x 254 0
      (by have := quantumExp_le y 254 0; omega)
    rw [abs_of_nonneg hx] at hxu
    have c23 : ((2 ^ 23 : Int) : ℚ) = 2 ^ 23 := by norm_num
    have c24 : ((2 ^ 24 : Int) : ℚ) = 2 ^ 24 := by norm_num
    have h1 : ((2 ^ 23 : Int) : ℚ) ≤ y / (2 ^ quantumExp y 254 0 / 2 ^ 149) := by
      rw [c23, le_div_iff₀ hqy]
      rw [pow_add] at hyl
      have : (2 : ℚ) ^ 23 * (2 ^ quantumExp y 254 0 / 2 ^ 149)
          = 2 ^ quantumExp y 254 0 * 2 ^ 23 / 2 ^ 149 := by ring
      rw [this, div_le_iff₀ (by positivity)]
      exact hyl
    have h2 : x / (2 ^ quantumExp x 254 0 / 2 ^ 149) ≤ ((2 ^ 24 : Int) : ℚ) := by
      rw [c24, div_le_iff₀ hqx]
      rw [pow_add] at hxu
      have : (2 : ℚ) ^ 24 * (2 ^ quantumExp x 254 0 / 2 ^ 149)
          = 2 ^ quantumExp x 254 0 * 2 ^ 24 / 2 ^ 149 := by ring
      rw [this, le_div_iff₀ (by positivity)]
      exact le_of_lt hxu
    have h3 := roundHalfEven_mono _ _ h1
    have h4 := roundHalfEven_mono _ _ h2
    rw [roundHalfEven_intCast] at h3 h4
    have hpow : (2 : ℚ) ^ (quantumExp x 254 0 + 24) ≤ 2 ^ (quantumExp y 254 0 + 23) :=
      pow_le_pow_right₀ (by norm_num) (by omega)
    have hA : roundToQuantum x ≤ 2 ^ (quantumExp x 254 0 + 24) / 2 ^ 149 := by
      unfold roundToQuantum
      simp only
      have : (roundHalfEven (x / (2 ^ quantumExp x 254 0 / 2 ^ 149)) : ℚ) ≤ 2 ^ 24 := by
        rw [← c24]; exact_mod_cast h4
      calc (roundHalfEven (x / (2 ^ quantumExp x 254 0 / 2 ^ 149)) : ℚ)
              * (2 ^ quantumExp x 254 0 / 2 ^ 149)
          ≤ 2 ^ 24 * (2 ^ quantumExp x 254 0 / 2 ^ 149) :=
            mul_le_mul_of_nonneg_right this (le_of_lt hqx)
        _ = 2 ^ (quantumExp x 254 0 + 24) / 2 ^ 149 := by rw [pow_add]; ring
    have hB : (2 : ℚ) ^ (quantumExp y 254 0 + 23) / 2 ^ 149 ≤ roundToQuantum y := by
      unfold roundToQuantum
      simp only
      have : (2 : ℚ) ^ 23 ≤ (roundHalfEven (y / (2 ^ quantumExp y 254 0 / 2 ^ 149)) : ℚ) := by
        rw [← c23]; exact_mod_cast h3
      calc (2 : ℚ) ^ (quantumExp y 254 0 + 23) / 2 ^ 149
          = 2 ^ 23 * (2 ^ quantumExp y 254 0 / 2 ^ 149) := by rw [pow_add]; ring
        _ ≤ (roundHalfEven (y / (2 ^ quantumExp y 254 0 / 2 ^ 149)) : ℚ)
              * (2 ^ quantumExp y 254 0 / 2 ^ 149) :=
            mul_le_mul_of_nonneg_right this (le_of_lt hqy)
    have hC : (2 : ℚ) ^ (quantumExp x 254 0 + 24) / 2 ^ 149
        ≤ 2 ^ (quantumExp y 254 0 + 23) / 2 ^ 149 :=
      div_le_div_of_nonneg_right hpow (by positivity)
    linarith

/-- Rounding to the binary32 grid is monotone. -/
theorem roundToQuantum_mono (x y : ℚ) (h : x ≤ y) : roundToQuantum x ≤ roundToQuantum y := by
  rcases le_total 0 x with hx | hx
  · exact roundToQuantum_mono_nonneg x y hx h
  · rcases le_total y 0 with hy | hy
    · have := roundToQuantum_mono_nonneg (-y) (-x) (by linarith) (by linarith)
      rw [roundToQuantum_neg, roundToQuantum_neg] at this
      linarith
    · have h1 := roundToQuantum_nonneg (-x) (by linarith)
      rw [roundToQuantum_neg] at h1
      have h2 := roundToQuantum_nonneg y hy
      linarith

theorem rn_eq_fin (x z : ℚ) (h : rn x = F32.fin z) :
    roundToQuantum x = z ∧ z < 2 ^ 128 ∧ -(2 ^ 128) < z := by
  unfold rn at h
  simp only at h
  split_ifs at h with h1 h2
  · injection h with h
    exact ⟨h, not_le.mp h1 |> (h ▸ ·), not_le.mp h2 |> (h ▸ ·)⟩

/-- A lower bound survives rounding. -/
theorem rn_ge (c x rc : ℚ) (hc : rn c = F32.fin rc) (h : c ≤ x) :
    rn x = F32.pinf ∨ ∃ z, rn x = F32.fin z ∧ rc ≤ z := by
  obtain ⟨h1, _, h3⟩ := rn_eq_fin c rc hc
  have hm := roundToQuantum_mono c x h
  rw [h1] at hm
  unfold rn
  simp only
  split_ifs with h4 h5
  · exact Or.inl rfl
  · linarith
  · exact Or.inr ⟨_, rfl, hm⟩

/-- An upper bound survives rounding. -/
theorem rn_le (c x rc : ℚ) (hc : rn c = F32.fin rc) (h : x ≤ c) :
    rn x = F32.ninf ∨ ∃ z, rn x = F32.fin z ∧ z ≤ rc := by
  obtain ⟨h1, h2, _⟩ := rn_eq_fin c rc hc
  have hm := roundToQuantum_mono x c h
  rw [h1] at hm
  unfold rn
  simp only
  split_ifs with h4 h5
  · linarith
  · exact Or.inl rfl
  · exact Or.inr ⟨_, rfl, hm⟩

/-- A number between two numbers with finite roundings has a finite rounding between them. -/
theorem rn_between (lo hi x rlo rhi : ℚ) (hlo : rn lo = F32.fin rlo) (hhi : rn hi = F32.fin rhi)
    (h1 : lo ≤ x) (h2 : x ≤ hi) : ∃ z, rn x = F32.fin z ∧ rlo ≤ z ∧ z ≤ rhi := by
  rcases rn_ge lo x rlo hlo h1 with hp | ⟨z, hz, hzlo⟩
  · rcases rn_le hi x rhi hhi h2 with hn | ⟨w, hw, _⟩
    · rw [hp] at hn; exact absurd hn (by simp)
    · rw [hp] at hw; exact absurd hw (by simp)
  · rcases rn_le hi x rhi hhi h2 with hn | ⟨w, hw, hwhi⟩
    · rw [hz] at hn; exact absurd hn (by simp)
    · rw [hz] at hw
      injection hw with hw
      exact ⟨z, hz, hzlo, hw ▸ hwhi⟩

theorem rn_zero : rn 0 = F32.fin 0 := by decide!

theorem rn_one : rn 1 = F32.fin 1 := by decide!

theorem roundHalfEven_error (z : ℚ) : |(roundHalfEven z : ℚ) - z| ≤ 1 / 2 := by
  have hk1 : (⌊z⌋ : ℚ) ≤ z := Int.floor_le z
  have hk2 : z < ⌊z⌋ + 1 := Int.lt_floor_add_one z
  unfold roundHalfEven
  rw [abs_le]
  split_ifs <;> push_cast <;> constructor <;> linarith

theorem quantumExp_le_of_lt (x : ℚ) (E fuel e : Nat) (he : e ≤ E)
    (h : |x| * 2 ^ 149 < 2 ^ (E + 24)) : quantumExp x fuel e ≤ E := by
  by_contra hlt
  push_neg at hlt
  have hl := quantumExp_lower x fuel e (by omega)
  have hpow : (2 : ℚ) ^ (E + 24) ≤ 2 ^ (quantumExp x fuel e + 23) :=
    pow_le_pow_right₀ (by norm_num) (by omega)
  linarith

theorem roundToQuantum_error (x : ℚ) (E : Nat) (h : |x| * 2 ^ 149 < 2 ^ (E + 24)) :
    |roundToQuantum x - x| ≤ 2 ^ E / 2 ^ 150 := by
  have he := quantumExp_le_of_lt x E 254 0 (Nat.zero_le _) h
  have hq : (0 : ℚ) < 2 ^ quantumExp x 254 0 / 2 ^ 149 := by positivity
  have herr := roundHalfEven_error (x / (2 ^ quantumExp x 254 0 / 2 ^ 149))
  have hpow : (2 : ℚ) ^ quantumExp x 254 0 ≤ 2 ^ E := pow_le_pow_right₀ (by norm_num) he
  have heq : roundToQuantum x - x
      = ((roundHalfEven (x / (2 ^ quantumExp x 254 0 / 2 ^ 149)) : ℚ)
          - x / (2 ^ quantumExp x 254 0 / 2 ^ 149)) * (2 ^ quantumExp x 254 0 / 2 ^ 149) := by
    unfold roundToQuantum
    simp only
    field_simp
    ring
  rw [heq, abs_mul, abs_of_pos hq]
  calc |(roundHalfEven (x / (2 ^ quantumExp x 254 0 / 2 ^ 149)) : ℚ)
          - x / (2 ^ quantumExp x 254 0 / 2 ^ 149)| * (2 ^ quantumExp x 254 0 / 2 ^ 149)
      ≤ 1 / 2 * (2 ^ quantumExp x 254 0 / 2 ^ 149) :=
        mul_le_mul_of_nonneg_right herr (le_of_lt hq)
    _ = 2 ^ quantumExp x 254 0 / 2 ^ 150 := by ring
    _ ≤ 2 ^ E / 2 ^ 150 := div_le_div_of_nonneg_right hpow (by positivity)

/-- Rounding a number of magnitude below `4` moves it by at most `2^-23`. -/
theorem rn_error_lt4 (x : ℚ) (h : |x| < 4) : ∃ z, rn x = F32.fin z ∧ |z - x| ≤ 1 / 2 ^ 23 := by
  have herr := roundToQuantum_error x 127 (by
    have : |x| * 2 ^ 149 < 4 * 2 ^ 149 := by
      apply mul_lt_mul_of_pos_right h; positivity
    calc |x| * 2 ^ 149 < 4 * 2 ^ 149 := this
      _ = 2 ^ (127 + 24) := by norm_num)
  have he : (2 : ℚ) ^ 127 / 2 ^ 150 = 1 / 2 ^ 23 := by norm_num
  rw [he] at herr
  have hb := abs_le.mp herr
  have hx := abs_lt.mp h
  refine ⟨roundToQuantum x, ?_, herr⟩
  unfold rn
  simp only
  have h1 : ¬ ((2 : ℚ) ^ 128 ≤ roundToQuantum x) := by
    intro hc
    have : (5 : ℚ) ≤ 2 ^ 128 := by norm_num
    have : (1 : ℚ) / 2 ^ 23 ≤ 1 := by norm_num
    linarith
  have h2 : ¬ (roundToQuantum x ≤ -(2 : ℚ) ^ 128) := by
    intro hc
    have : (5 : ℚ) ≤ 2 ^ 128 := by norm_num
    have : (1 : ℚ) / 2 ^ 23 ≤ 1 := by norm_num
    linarith
  rw [if_neg h1, if_neg h2]

/-- Rounding a number of magnitude below `2` moves it by at most `2^-24`. -/
theorem rn_error_lt2 (x : ℚ) (h : |x| < 2) : ∃ z, rn x = F32.fin z ∧ |z - x| ≤ 1 / 2 ^ 24 := by
  have herr := roundToQuantum_error x 126 (by
    have : |x| * 2 ^ 149 < 2 * 2 ^ 149 := by
      apply mul_lt_mul_of_pos_right h; positivity
    calc |x| * 2 ^ 149 < 2 * 2 ^ 149 := this
      _ = 2 ^ (126 + 24) := by norm_num)
  have he : (2 : ℚ) ^ 126 / 2 ^ 150 = 1 / 2 ^ 24 := by norm_num
  rw [he] at herr
  obtain ⟨z, hz, _⟩ := rn_error_lt4 x (by linarith)
  have := (rn_eq_fin x z hz).1
  exact ⟨z, hz, this ▸ herr⟩

/-! ## Magnitude bounds -/

theorem rn_two_pow (k : Nat) (hk : k ≤ 63) :
    rn (2 ^ k) = F32.fin (2 ^ k) ∧ rn (-(2 ^ k)) = F32.fin (-(2 ^ k)) := by
  interval_cases k <;> decide!

theorem absLe_elim (B : ℚ) (v : F32) (h : F32.absLe B v) : ∃ z, v = F32.fin z ∧ |z| ≤ B := by
  cases v with
  | fin q => exact ⟨q, rfl, h⟩
  | pinf => exact absurd h (by simp [F32.absLe])
  | ninf => exact absurd h (by simp [F32.absLe])
  | nan => exact absurd h (by simp [F32.absLe])

theorem rn_absLe (k : Nat) (hk : k ≤ 63) (x : ℚ) (h : |x| ≤ 2 ^ k) :
    F32.absLe (2 ^ k) (rn x) := by
  obtain ⟨hB, hB'⟩ := rn_two_pow k hk
  obtain ⟨z, hz, h1, h2⟩ := rn_between (-(2 ^ k)) (2 ^ k) x (-(2 ^ k)) (2 ^ k) hB' hB
    (neg_le_of_abs_le h) (le_of_abs_le h)
  rw [hz]
  exact abs_le.mpr ⟨h1, h2⟩

theorem add_absLe (k : Nat) (hk : k ≤ 63) (x y : ℚ) (a b : F32)
    (ha : F32.absLe x a) (hb : F32.absLe y b) (h : x + y ≤ 2 ^ k) :
    F32.absLe (2 ^ k) (F32.add a b) := by
  obtain ⟨za, rfl, hza⟩ := absLe_elim x a ha
  obtain ⟨zb, rfl, hzb⟩ := absLe_elim y b hb
  exact rn_absLe k hk (za + zb) (le_trans (abs_add za zb) (by linarith))

theorem sub_absLe (k : Nat) (hk : k ≤ 63) (x y : ℚ) (a b : F32)
    (ha : F32.absLe x a) (hb : F32.absLe y b) (h : x + y ≤ 2 ^ k) :
    F32.absLe (2 ^ k) (F32.sub a b) := by
  obtain ⟨za, rfl, hza⟩ := absLe_elim x a ha
  obtain ⟨zb, rfl, hzb⟩ := absLe_elim y b hb
  refine rn_absLe k hk (za + -zb) (le_trans (abs_add za (-zb)) ?_)
  rw [abs_neg]
  linarith

theorem mul_absLe (k : Nat) (hk : k ≤ 63) (x y : ℚ) (a b : F32)
    (ha : F32.absLe x a) (hb : F32.absLe y b) (h : x * y ≤ 2 ^ k) :
    F32.absLe (2 ^ k) (F32.mul a b) := by
  obtain ⟨za, rfl, hza⟩ := absLe_elim x a ha
  obtain ⟨zb, rfl, hzb⟩ := absLe_elim y b hb
  refine rn_absLe k hk (za * zb) ?_
  rw [abs_mul]
  exact le_trans (mul_le_mul hza hzb (abs_nonneg zb) (le_trans (abs_nonneg za) hza)) h

theorem absLe_of_inUnit (v : F32) (h : F32.inUnit v) : F32.absLe 1 v := by
  cases v with
  | fin q => exact abs_le.mpr ⟨by have := h.1; linarith, h.2⟩
  | pinf => exact absurd h (by simp [F32.inUnit])
  | ninf => exact absurd h (by simp [F32.inUnit])
  | nan => exact absurd h (by simp [F32.inUnit])


/-! ## Loops -/

theorem forLoop_inv {σ : Type} (body : Int → σ → Option σ) (Inv : Int → σ → Prop) (hi : Int)
    (hstep : ∀ i s, i < hi → Inv i s → ∃ s', body i s = some s' ∧ Inv (i + 1) s') :
    ∀ (k : Nat) (i : Int) (s : σ), i + k = hi → Inv i s →
      ∃ s', forLoop body k i s = some s' ∧ Inv hi s' := by
  intro k
  induction k with
  | zero =>
    intro i s hk hinv
    have : i = hi := by simpa using hk
    subst this
    exact ⟨s, rfl, hinv⟩
  | succ k ih =>
    intro i s hk hinv
    have hlt : i < hi := by push_cast at hk; omega
    obtain ⟨s1, hb, hinv1⟩ := hstep i s hlt hinv
    obtain ⟨s2, hl, hinv2⟩ := ih (i + 1) s1 (by push_cast at hk; omega) hinv1
    exact ⟨s2, by simp [forLoop, hb, hl], hinv2⟩

theorem forRange_inv {σ : Type} (body : Int → σ → Option σ) (Inv : Int → σ → Prop) (lo hi : Int)
    (hle : lo ≤ hi)
    (hstep : ∀ i s, i < hi → Inv i s → ∃ s', body i s = some s' ∧ Inv (i + 1) s')
    (s : σ) (h0 : Inv lo s) :
    ∃ s', forRange lo hi body s = some s' ∧ Inv hi s' := by
  unfold forRange
  exact forLoop_inv body Inv hi hstep (hi - lo).toNat lo s (by omega) h0

theorem forRange_empty {σ : Type} (body : Int → σ → Option σ) (lo hi : Int) (h : hi ≤ lo)
    (s : σ) : forRange lo hi body s = some s := by
  unfold forRange
  have : (hi - lo).toNat = 0 := by omega
  rw [this]
  rfl

theorem forRange_preserves {σ : Type} (body : Int → σ → Option σ) (P : σ → Prop) (lo hi : Int)
    (hstep : ∀ i s, lo ≤ i → i < hi → P s → ∃ s', body i s = some s' ∧ P s')
    (s : σ) (h0 : P s) :
    ∃ s', forRange lo hi body s = some s' ∧ P s' := by
  by_cases hle : lo ≤ hi
  · obtain ⟨s', h1, _, h2⟩ := forRange_inv body (fun i t => lo ≤ i ∧ P t) lo hi hle
      (fun i t hlt hinv => by
        obtain ⟨t', hb, hp⟩ := hstep i t hinv.1 hlt hinv.2
        exact ⟨t', hb, by omega, hp⟩) s ⟨le_refl _, h0⟩
    exact ⟨s', h1, h2⟩
  · exact ⟨s, forRange_empty body lo hi (by omega) s, h0⟩

/-! ## Addressing on a square grid -/

theorem index_nonneg (n : Nat) (r c : Int) (hr : 0 ≤ r) (hc : 0 ≤ c) : 0 ≤ r * (n : Int) + c := by
  have : 0 ≤ r * (n : Int) := mul_nonneg hr (Int.ofNat_nonneg n)
  omega

theorem index_lt_int (n : Nat) (r c : Int) (hr : r < n) (hc : c < n) :
    r * (n : Int) + c < (n : Int) * n := by
  have h1 : (r + 1) * (n : Int) ≤ (n : Int) * n :=
    mul_le_mul_of_nonneg_right (by omega) (Int.ofNat_nonneg n)
  have h2 : (r + 1) * (n : Int) = r * n + n := by ring
  omega

theorem index_lt (n : Nat) (r c : Int) (hr0 : 0 ≤ r) (hr : r < n) (hc0 : 0 ≤ c) (hc : c < n) :
    (r * (n : Int) + c).toNat < n * n := by
  rw [Int.toNat_lt (index_nonneg n r c hr0 hc0)]
  push_cast
  exact index_lt_int n r c hr hc

theorem index_inj (n : Nat) (r c r' c' : Int) (hc0 : 0 ≤ c) (hc : c < n) (hc0' : 0 ≤ c')
    (hc' : c' < n) (h : r * (n : Int) + c = r' * (n : Int) + c') : r = r' ∧ c = c' := by
  have key : ∀ (a b x y : Int), x < n → 0 ≤ y → a < b → a * (n : Int) + x ≠ b * (n : Int) + y := by
    intro a b x y hx hy hab heq
    have h1 : (a + 1) * (n : Int) ≤ b * (n : Int) :=
      mul_le_mul_of_nonneg_right (by omega) (Int.ofNat_nonneg n)
    have h2 : (a + 1) * (n : Int) = a * n + n := by ring
    omega
  rcases lt_trichotomy r r' with hlt | heq | hgt
  · exact absurd h (key r r' c c' hc hc0' hlt)
  · subst heq
    exact ⟨rfl, by omega⟩
  · exact absurd h.symm (key r' r c' c hc' hc0 hgt)

theorem readCell_grid {α : Type} (ar : FloatOps α) (n : Nat) (s : Field α)
    (hlen : s.length = n * n) (r c : Int)
    (hr0 : 0 ≤ r) (hr : r < n) (hc0 : 0 ≤ c) (hc : c < n) :
    readCell s (r * (n : Int) + c) = some (cellAt ar n s r c) := by
  have h0 := index_nonneg n r c hr0 hc0
  have h1 : (r * (n : Int) + c).toNat < s.length := by
    rw [hlen]; exact index_lt n r c hr0 hr hc0 hc
  simp [cellAt, readCell, h0, List.getElem?_eq_getElem h1]

theorem cellAt_set {α : Type} (ar : FloatOps α) (n : Nat) (s : Field α)
    (hlen : s.length = n * n) (i j r c : Int) (v : Cell α)
    (hi0 : 0 ≤ i) (hi : i < n) (hj0 : 0 ≤ j) (hj : j < n)
    (hr0 : 0 ≤ r) (hc0 : 0 ≤ c) (hc : c < n) :
    cellAt ar n (s.set (i * (n : Int) + j).toNat v) r c
      = if r = i ∧ c = j then v else cellAt ar n s r c := by
  have hi0' := index_nonneg n i j hi0 hj0
  have hr0' := index_nonneg n r c hr0 hc0
  have hlt : (i * (n : Int) + j).toNat < s.length := by
    rw [hlen]; exact index_lt n i j hi0 hi hj0 hj
  by_cases h : r = i ∧ c = j
  · obtain ⟨rfl, rfl⟩ := h
    simp [cellAt, readCell, hi0', List.getElem?_set, hlt]
  · have hne : (i * (n : Int) + j).toNat ≠ (r * (n : Int) + c).toNat := by
      intro heq
      have : i * (n : Int) + j = r * (n : Int) + c := by omega
      obtain ⟨h1, h2⟩ := index_inj n i j r c hj0 hj hc0 hc this
      exact h ⟨h1.symm, h2.symm⟩
    simp [cellAt, readCell, hr0', List.getElem?_set, hne, h]

theorem write_both {α : Type} (s : Field α) (idx : Int) (h0 : 0 ≤ idx)
    (h : idx.toNat < s.length) (A B : α) :
    (writeFirst s idx A).bind (fun s' => writeSecond s' idx B)
      = some (s.set idx.toNat (A, B)) := by
  have h' : idx < (s.length : Int) := by omega
  simp [writeFirst, writeSecond, readCell, h0, List.getElem?_eq_getElem h, List.getElem?_set, h']

theorem readFirst_grid {α : Type} (ar : FloatOps α) (n : Nat) (s : Field α)
    (hlen : s.length = n * n) (r c : Int)
    (hr0 : 0 ≤ r) (hr : r < n) (hc0 : 0 ≤ c) (hc : c < n) :
    readFirst s (r * (n : Int) + c) = some (cellAt ar n s r c).1 := by
  simp [readFirst, readCell_grid ar n s hlen r c hr0 hr hc0 hc]

theorem readSecond_grid {α : Type} (ar : FloatOps α) (n : Nat) (s : Field α)
    (hlen : s.length = n * n) (r c : Int)
    (hr0 : 0 ≤ r) (hr : r < n) (hc0 : 0 ≤ c) (hc : c < n) :
    readSecond s (r * (n : Int) + c) = some (cellAt ar n s r c).2 := by
  simp [readSecond, readCell_grid ar n s hlen r c hr0 hr hc0 hc]

theorem laplaceA_grid {α : Type} (ar : FloatOps α) (n : Nat) (s : Field α)
    (hlen : s.length = n * n) (y x : Int)
    (hy1 : 1 ≤ y) (hy : y + 1 < n) (hx1 : 1 ≤ x) (hx : x + 1 < n) :
    laplaceA ar n y x s = some (lapA ar n s y x) := by
  unfold laplaceA lapA
  simp (disch := omega) only [readFirst_grid ar n s hlen]
  rfl

theorem laplaceB_grid {α : Type} (ar : FloatOps α) (n : Nat) (s : Field α)
    (hlen : s.length = n * n) (y x : Int)
    (hy1 : 1 ≤ y) (hy : y + 1 < n) (hx1 : 1 ≤ x) (hx : x + 1 < n) :
    laplaceB ar n y x s = some (lapB ar n s y x) := by
  unfold laplaceB lapB
  simp (disch := omega) only [readSecond_grid ar n s hlen]
  rfl

theorem updateCell_interior {α : Type} (ar : FloatOps α) (p : Params α) (n : Nat) (s : Field α)
    (hlen : s.length = n * n)
    (i j : Int) (hi1 : 1 ≤ i) (hi : i + 1 < n) (hj1 : 1 ≤ j) (hj : j + 1 < n) :
    updateCell ar p n i j s
      = some (s.set (i * (n : Int) + j).toNat (updatedCell ar p n s i j)) := by
  have h0 := index_nonneg n i j (by omega) (by omega)
  have h1 : (i * (n : Int) + j).toNat < s.length := by
    rw [hlen]; exact index_lt n i j (by omega) (by omega) (by omega) (by omega)
  have hw := write_both s (i * (n : Int) + j) h0 h1
  unfold updateCell updatedCell
  rw [readFirst_grid ar n s hlen i j (by omega) (by omega) (by omega) (by omega),
    readSecond_grid ar n s hlen i j (by omega) (by omega) (by omega) (by omega),
    laplaceA_grid ar n s hlen i j hi1 hi hj1 hj, laplaceB_grid ar n s hlen i j hi1 hi hj1 hj]
  exact hw _ _

theorem cellAt_set_ne {α : Type} (ar : FloatOps α) (n : Nat) (s : Field α)
    (hlen : s.length = n * n) (i j r c : Int) (v : Cell α)
    (hi0 : 0 ≤ i) (hi : i < n) (hj0 : 0 ≤ j) (hj : j < n)
    (hr0 : 0 ≤ r) (hc0 : 0 ≤ c) (hc : c < n) (hne : r ≠ i ∨ c ≠ j) :
    cellAt ar n (s.set (i * (n : Int) + j).toNat v) r c = cellAt ar n s r c := by
  rw [cellAt_set ar n s hlen i j r c v hi0 hi hj0 hj hr0 hc0 hc, if_neg (by omega)]

theorem cellAt_set_self {α : Type} (ar : FloatOps α) (n : Nat) (s : Field α)
    (hlen : s.length = n * n) (i j : Int) (v : Cell α)
    (hi0 : 0 ≤ i) (hi : i < n) (hj0 : 0 ≤ j) (hj : j < n) :
    cellAt ar n (s.set (i * (n : Int) + j).toNat v) i j = v := by
  rw [cellAt_set ar n s hlen i j i j v hi0 hi hj0 hj hi0 hj0 hj, if_pos ⟨rfl, rfl⟩]

/-! ## The update loop on a square grid -/

/-- Any property of the buffer that each execution of the loop body keeps is kept by a step,
and on an `n × n` grid with a buffer of `n * n` cells every access of the step is in range. -/
theorem step_preserves {α : Type} (ar : FloatOps α) (p : Params α) (n : Nat)
    (Inv : Field α → Prop)
    (hupd : ∀ (s : Field α) (i j : Int), s.length = n * n → 1 ≤ i → i + 1 < n → 1 ≤ j →
      j + 1 < n → Inv s → Inv (s.set (i * (n : Int) + j).toNat (updatedCell ar p n s i j)))
    (P : Field α) (hlen : P.length = n * n) (h0 : Inv P) :
    ∃ Q, step ar p n n P = some Q ∧ Q.length = n * n ∧ Inv Q := by
  unfold step stepWith
  refine forRange_preserves _ (fun s => s.length = n * n ∧ Inv s) 1 _ ?_ P ⟨hlen, h0⟩
  intro i s hi1 hi hs
  refine forRange_preserves _ (fun s => s.length = n * n ∧ Inv s) 1 _ ?_ s hs
  intro j t hj1 hj ht
  refine ⟨_, updateCell_interior ar p n t ht.1 i j hi1 (by omega) hj1 (by omega), ?_, ?_⟩
  · rw [List.length_set]; exact ht.1
  · exact hupd t i j ht.1 hi1 (by omega) hj1 (by omega) ht.2

/-- The pair `sweepCell` written out: which of the nine stencil cells come from `P` and which
from `Q`. -/
theorem sweepCell_eq {α : Type} (ar : FloatOps α) (p : Params α) (gridSizeY : Int)
    (P Q : Field α) (i j : Int) :
    sweepCell ar p gridSizeY P Q i j =
      (newA ar p (cellAt ar gridSizeY P i j).1 (cellAt ar gridSizeY P i j).2
          (laplaceTotal ar (cellAt ar gridSizeY P i j).1
            (cellAt ar gridSizeY Q i (j - 1)).1 (cellAt ar gridSizeY P i (j + 1)).1
            (cellAt ar gridSizeY Q (i - 1) j).1 (cellAt ar gridSizeY P (i + 1) j).1
            (cellAt ar gridSizeY Q (i - 1) (j - 1)).1 (cellAt ar gridSizeY P (i + 1) (j - 1)).1
            (cellAt ar gridSizeY Q (i - 1) (j + 1)).1 (cellAt ar gridSizeY P (i + 1) (j + 1)).1),
       newB ar p (cellAt ar gridSizeY P i j).1 (cellAt ar gridSizeY P i j).2
          (laplaceTotal ar (cellAt ar gridSizeY P i j).2
            (cellAt ar gridSizeY Q i (j - 1)).2 (cellAt ar gridSizeY P i (j + 1)).2
            (cellAt ar gridSizeY Q (i - 1) j).2 (cellAt ar gridSizeY P (i + 1) j).2
            (cellAt ar gridSizeY Q (i - 1) (j - 1)).2 (cellAt ar gridSizeY P (i + 1) (j - 1)).2
            (cellAt ar gridSizeY Q (i - 1) (j + 1)).2
            (cellAt ar gridSizeY P (i + 1) (j + 1)).2)) := by
  have e1 : ∀ x : Int, ¬ (x = x - 1) := fun x => by omega
  have e2 : ∀ x : Int, ¬ (x + 1 = x - 1) := fun x => by omega
  have e3 : ∀ x : Int, ¬ (x + 1 = x) := fun x => by omega
  simp only [sweepCell, stencil, mixedField, e1, e2, e3, true_and, false_and, and_true,
    and_false, true_or, or_true, or_false, false_or, if_true, if_false]

theorem sweepInv_updateCell {α : Type} (ar : FloatOps α) (p : Params α) (n : Nat)
    (P s : Field α) (i j : Int)
    (hi1 : 1 ≤ i) (hi : i + 1 < n) (hj1 : 1 ≤ j) (hj : j + 1 < n)
    (h : SweepInv ar p n P i j s) :
    SweepInv ar p n P i (j + 1)
      (s.set (i * (n : Int) + j).toNat (updatedCell ar p n s i j)) := by
  obtain ⟨hlen, hold, hnew⟩ := h
  have hset : ∀ r c : Int, 0 ≤ r → 0 ≤ c → c < n → (r ≠ i ∨ c ≠ j) →
      cellAt ar n (s.set (i * (n : Int) + j).toNat (updatedCell ar p n s i j)) r c
        = cellAt ar n s r c :=
    fun r c hr0 hc0 hc hne =>
      cellAt_set_ne ar n s hlen i j r c _ (by omega) (by omega) (by omega) (by omega)
        hr0 hc0 hc hne
  refine ⟨by rw [List.length_set]; exact hlen, ?_, ?_⟩
  · intro r c hr0 hr hc0 hc hnot
    rw [hset r c hr0 hc0 hc (by omega)]
    exact hold r c hr0 hr hc0 hc (by omega)
  · intro r c hr1 hr hc1 hc hproc
    by_cases hrc : r = i ∧ c = j
    · obtain ⟨rfl, rfl⟩ := hrc
      rw [cellAt_set_self ar n s hlen r c _ (by omega) (by omega) (by omega) (by omega),
        sweepCell_eq]
      rw [hset r (c - 1) (by omega) (by omega) (by omega) (by omega),
        hset (r - 1) c (by omega) (by omega) (by omega) (by omega),
        hset (r - 1) (c - 1) (by omega) (by omega) (by omega) (by omega),
        hset (r - 1) (c + 1) (by omega) (by omega) (by omega) (by omega)]
      unfold updatedCell lapA lapB
      rw [hold r c (by omega) (by omega) (by omega) (by omega) (by omega),
        hold r (c + 1) (by omega) (by omega) (by omega) (by omega) (by omega),
        hold (r + 1) c (by omega) (by omega) (by omega) (by omega) (by omega),
        hold (r + 1) (c - 1) (by omega) (by omega) (by omega) (by omega) (by omega),
        hold (r + 1) (c + 1) (by omega) (by omega) (by omega) (by omega) (by omega)]
    · rw [hset r c (by omega) (by omega) (by omega) (by omega),
        hnew r c hr1 hr hc1 hc (by omega), sweepCell_eq, sweepCell_eq]
      rw [hset r (c - 1) (by omega) (by omega) (by omega) (by omega),
        hset (r - 1) c (by omega) (by omega) (by omega) (by omega),
        hset (r - 1) (c - 1) (by omega) (by omega) (by omega) (by omega),
        hset (r - 1) (c + 1) (by omega) (by omega) (by omega) (by omega)]

theorem sweepInv_congr {α : Type} (ar : FloatOps α) (p : Params α) (n : Nat)
    (P s : Field α) (i j i' j' : Int)
    (hiff : ∀ r c : Int, 1 ≤ r → r + 1 < n → 1 ≤ c → c + 1 < n →
      ((r < i ∨ (r = i ∧ c < j)) ↔ (r < i' ∨ (r = i' ∧ c < j'))))
    (h : SweepInv ar p n P i j s) : SweepInv ar p n P i' j' s := by
  obtain ⟨hlen, hold, hnew⟩ := h
  refine ⟨hlen, ?_, ?_⟩
  · intro r c hr0 hr hc0 hc hnot
    refine hold r c hr0 hr hc0 hc ?_
    rintro ⟨h1, h2, h3, h4, h5⟩
    exact hnot ⟨h1, h2, h3, h4, (hiff r c h1 h2 h3 h4).1 h5⟩
  · intro r c hr1 hr hc1 hc hproc
    exact hnew r c hr1 hr hc1 hc ((hiff r c hr1 hr hc1 hc).2 hproc)

/-- The in-place sweep on a square grid: the step succeeds, cells outside the interior keep
their value, and every interior cell ends with its `sweepCell` value. -/
theorem step_sweep {α : Type} (ar : FloatOps α) (p : Params α) (n : Nat) (P : Field α)
    (hlen : P.length = n * n) :
    ∃ Q, step ar p n n P = some Q ∧ Q.length = n * n ∧
      (∀ r c : Int, 0 ≤ r → r < n → 0 ≤ c → c < n →
        ¬ (1 ≤ r ∧ r + 1 < n ∧ 1 ≤ c ∧ c + 1 < n) → cellAt ar n Q r c = cellAt ar n P r c) ∧
      (∀ r c : Int, 1 ≤ r → r + 1 < n → 1 ≤ c → c + 1 < n →
        cellAt ar n Q r c = sweepCell ar p n P Q r c) := by
  by_cases hn : (1 : Int) ≤ (n : Int) - 1
  · have houter := forRange_inv
      (fun i c => forRange 1 ((n : Int) - 1) (fun j c => updateCell ar p n i j c) c)
      (fun i s => 1 ≤ i ∧ SweepInv ar p n P i 1 s) 1 ((n : Int) - 1) hn
      (fun i s hi hinv => by
        obtain ⟨hi1, hsw⟩ := hinv
        obtain ⟨t, ht, _, hswt⟩ := forRange_inv (fun j c => updateCell ar p n i j c)
          (fun j t => 1 ≤ j ∧ SweepInv ar p n P i j t) 1 ((n : Int) - 1) hn
          (fun j t hj hinv' =>
            ⟨_, updateCell_interior ar p n t hinv'.2.1 i j hi1 (by omega) hinv'.1 (by omega),
              by omega,
              sweepInv_updateCell ar p n P t i j hi1 (by omega) hinv'.1 (by omega) hinv'.2⟩)
          s ⟨le_refl _, hsw⟩
        refine ⟨t, ht, by omega, ?_⟩
        exact sweepInv_congr ar p n P t i ((n : Int) - 1) (i + 1) 1
          (fun r c _ _ _ _ => by omega) hswt)
      P ⟨le_refl _, hlen, fun _ _ _ _ _ _ _ => rfl, fun r c hr1 _ hc1 _ hproc => by omega⟩
    obtain ⟨Q, hQ, _, hQlen, hold, hnew⟩ := houter
    refine ⟨Q, hQ, hQlen, ?_, ?_⟩
    · intro r c hr0 hr hc0 hc hnot
      exact hold r c hr0 hr hc0 hc (by omega)
    · intro r c hr1 hr hc1 hc
      exact hnew r c hr1 hr hc1 hc (by omega)
  · refine ⟨P, forRange_empty _ _ _ (by omega) P, hlen, fun _ _ _ _ _ _ _ => rfl, ?_⟩
    intro r c hr1 hr hc1 hc
    omega

/-! ## Loops that visit the whole grid (`splat`, `resetConcentration`) -/

/-- A loop nest over all cells of an `n × n` grid whose body stores `v` in the cells selected
by `cond` and does nothing elsewhere: it succeeds on a buffer of `n * n` cells, and afterwards
exactly the selected cells hold `v`. -/
theorem fill_grid {α : Type} (ar : FloatOps α) (n : Nat)
    (body : Int → Int → Field α → Option (Field α))
    (cond : Int → Int → Prop) [∀ i j, Decidable (cond i j)] (v : Cell α)
    (hbody : ∀ (s : Field α) (i j : Int), s.length = n * n → 0 ≤ i → i < n → 0 ≤ j → j < n →
      body i j s = some (if cond i j then s.set (i * (n : Int) + j).toNat v else s))
    (P : Field α) (hlen : P.length = n * n) :
    ∃ Q, forRange 0 n (fun i c => forRange 0 n (fun j c => body i j c) c) P = some Q ∧
      Q.length = n * n ∧
      ∀ r c : Int, 0 ≤ r → r < n → 0 ≤ c → c < n →
        cellAt ar n Q r c = if cond r c then v else cellAt ar n P r c := by
  have hinner : ∀ (i : Int) (s : Field α), 0 ≤ i → i < n →
      (s.length = n * n ∧ ∀ r c : Int, 0 ≤ r → r < n → 0 ≤ c → c < n →
        cellAt ar n s r c
          = if (r < i ∨ (r = i ∧ c < 0)) ∧ cond r c then v else cellAt ar n P r c) →
      ∃ t, forRange 0 n (fun j c => body i j c) s = some t ∧
        (s.length = n * n ∧ t.length = n * n ∧ ∀ r c : Int, 0 ≤ r → r < n → 0 ≤ c → c < n →
          cellAt ar n t r c
            = if (r < i ∨ (r = i ∧ c < n)) ∧ cond r c then v else cellAt ar n P r c) := by
    intro i s hi0 hi hs
    obtain ⟨t, ht, _, htlen, hcells⟩ := forRange_inv (fun j c => body i j c)
      (fun j t => 0 ≤ j ∧ t.length = n * n ∧ ∀ r c : Int, 0 ≤ r → r < n → 0 ≤ c → c < n →
        cellAt ar n t r c
          = if (r < i ∨ (r = i ∧ c < j)) ∧ cond r c then v else cellAt ar n P r c)
      0 n (Int.ofNat_nonneg n)
      (fun j t hj hinv => by
        obtain ⟨hj0, htlen, hcells⟩ := hinv
        refine ⟨_, hbody t i j htlen hi0 hi hj0 hj, by omega, ?_, ?_⟩
        · split
          · rw [List.length_set]; exact htlen
          · exact htlen
        · intro r c hr0 hr hc0 hc
          by_cases hrc : r = i ∧ c = j
          · obtain ⟨rfl, rfl⟩ := hrc
            by_cases hcond : cond r c
            · rw [if_pos hcond, cellAt_set_self ar n t htlen r c v hr0 hr hc0 hc,
                if_pos ⟨by omega, hcond⟩]
            · rw [if_neg hcond, hcells r c hr0 hr hc0 hc, if_neg (by omega),
                if_neg (fun h => hcond h.2)]
          · have hiff : ((r < i ∨ (r = i ∧ c < j + 1)) ∧ cond r c)
                ↔ ((r < i ∨ (r = i ∧ c < j)) ∧ cond r c) := by
              constructor <;> rintro ⟨h1, h2⟩ <;> exact ⟨by omega, h2⟩
            rw [if_congr hiff rfl rfl, ← hcells r c hr0 hr hc0 hc]
            split
            · exact cellAt_set_ne ar n t htlen i j r c v hi0 hi hj0 hj hr0 hc0 hc (by omega)
            · rfl)
      s ⟨le_refl _, hs⟩
    exact ⟨t, ht, hs.1, htlen, hcells⟩
  obtain ⟨Q, hQ, _, hQlen, hcells⟩ := forRange_inv
    (fun i c => forRange 0 n (fun j c => body i j c) c)
    (fun i s => 0 ≤ i ∧ s.length = n * n ∧ ∀ r c : Int, 0 ≤ r → r < n → 0 ≤ c → c < n →
      cellAt ar n s r c
        = if (r < i ∨ (r = i ∧ c < 0)) ∧ cond r c then v else cellAt ar n P r c)
    0 n (Int.ofNat_nonneg n)
    (fun i s hi hinv => by
      obtain ⟨t, ht, _, htlen, hcells⟩ := hinner i s hinv.1 hi hinv.2
      refine ⟨t, ht, by omega, htlen, ?_⟩
      intro r c hr0 hr hc0 hc
      have hiff : ((r < i + 1 ∨ (r = i + 1 ∧ c < 0)) ∧ cond r c)
          ↔ ((r < i ∨ (r = i ∧ c < n)) ∧ cond r c) := by
        constructor <;> rintro ⟨h1, h2⟩ <;> exact ⟨by omega, h2⟩
      rw [if_congr hiff rfl rfl]
      exact hcells r c hr0 hr hc0 hc)
    P ⟨le_refl _, hlen, fun r c hr0 _ hc0 _ => by rw [if_neg (by omega)]⟩
  refine ⟨Q, hQ, hQlen, ?_⟩
  intro r c hr0 hr hc0 hc
  have hiff : ((r < n ∨ (r = n ∧ c < 0)) ∧ cond r c) ↔ cond r c :=
    ⟨fun h => h.2, fun h => ⟨Or.inl hr, h⟩⟩
  rw [hcells r c hr0 hr hc0 hc, if_congr hiff rfl rfl]

theorem splat_square {α : Type} (ar : FloatOps α) (n : Nat) (field : Field α)
    (hlen : field.length = n * n) (x y size : Int) :
    ∃ Q, splat ar n n field x y size = some Q ∧ Q.length = n * n ∧
      ∀ r c : Int, 0 ≤ r → r < n → 0 ≤ c → c < n →
        cellAt ar n Q r c
          = if (r > wrap32 (y - size) ∧ c > wrap32 (x - size))
                ∧ (r < wrap32 (y + size) ∧ c < wrap32 (x + size))
            then (ar.lit 0, ar.lit 1) else cellAt ar n field r c := by
  unfold splat
  refine fill_grid ar n _
    (fun i j => (i > wrap32 (y - size) ∧ j > wrap32 (x - size))
      ∧ (i < wrap32 (y + size) ∧ j < wrap32 (x + size))) (ar.lit 0, ar.lit 1) ?_
    field hlen
  intro s i j hs hi0 hi hj0 hj
  have h1 : (i * (n : Int) + j).toNat < s.length := by
    rw [hs]; exact index_lt n i j hi0 hi hj0 hj
  have hw := write_both s (i * (n : Int) + j) (index_nonneg n i j hi0 hj0) h1 (ar.lit 0)
    (ar.lit 1)
  by_cases hc : (i > wrap32 (y - size) ∧ j > wrap32 (x - size))
      ∧ (i < wrap32 (y + size) ∧ j < wrap32 (x + size))
  · rw [if_pos hc, if_pos hc]; exact hw
  · rw [if_neg hc, if_neg hc]

theorem reset_square {α : Type} (ar : FloatOps α) (n : Nat) (field : Field α)
    (hlen : field.length = n * n) :
    ∃ Q, resetConcentration ar n n field = some Q ∧ Q.length = n * n ∧
      ∀ r c : Int, 0 ≤ r → r < n → 0 ≤ c → c < n →
        cellAt ar n Q r c = (ar.lit 1, ar.lit 0) := by
  unfold resetConcentration
  obtain ⟨Q, hQ, hQlen, hcells⟩ := fill_grid ar n
    (fun i j c => (writeFirst c (i * (n : Int) + j) (ar.lit 1)).bind
      (fun c => writeSecond c (i * (n : Int) + j) (ar.lit 0)))
    (fun _ _ => True) (ar.lit 1, ar.lit 0)
    (fun s i j hs hi0 hi hj0 hj => by
      have h1 : (i * (n : Int) + j).toNat < s.length := by
        rw [hs]; exact index_lt n i j hi0 hi hj0 hj
      rw [if_pos trivial]
      exact write_both s (i * (n : Int) + j) (index_nonneg n i j hi0 hj0) h1 (ar.lit 1)
        (ar.lit 0))
    field hlen
  exact ⟨Q, hQ, hQlen, fun r c hr0 hr hc0 hc => by rw [hcells r c hr0 hr hc0 hc, if_pos trivial]⟩

/-- On an `n × n` grid every element of a buffer of `n * n` cells is the cell of some
`(row, col)`: a property of all grid cells is a property of all elements. -/
theorem forall_mem_of_cells {α : Type} (ar : FloatOps α) (n : Nat) (Q : Field α)
    (Pr : Cell α → Prop) (hlen : Q.length = n * n)
    (hcells : ∀ r c : Int, 0 ≤ r → r < n → 0 ≤ c → c < n → Pr (cellAt ar n Q r c)) :
    ∀ b ∈ Q, Pr b := by
  intro b hb
  obtain ⟨k, hk, rfl⟩ := List.getElem_of_mem hb
  have hn : 0 < n := by
    rcases Nat.eq_zero_or_pos n with h | h
    · subst h; simp at hlen; rw [hlen] at hk; exact absurd hk (Nat.not_lt_zero _)
    · exact h
  have hkn : k < n * n := hlen ▸ hk
  have hdiv : k / n < n := Nat.div_lt_of_lt_mul hkn
  have hmod : k % n < n := Nat.mod_lt k hn
  have hidx : ((k / n : Nat) : Int) * (n : Int) + ((k % n : Nat) : Int) = (k : Int) := by
    exact_mod_cast Nat.div_add_mod' k n
  have h := hcells ((k / n : Nat) : Int) ((k % n : Nat) : Int)
    (Int.ofNat_nonneg _) (by exact_mod_cast hdiv) (Int.ofNat_nonneg _) (by exact_mod_cast hmod)
  rw [cellAt, hidx] at h
  simpa [readCell, List.getElem?_eq_getElem hk] using h

theorem cells_of_forall_mem {α : Type} (ar : FloatOps α) (n : Nat) (Q : Field α)
    (Pr : Cell α → Prop) (hlen : Q.length = n * n)
    (hall : ∀ b ∈ Q, Pr b) (r c : Int) (hr0 : 0 ≤ r) (hr : r < n) (hc0 : 0 ≤ c) (hc : c < n) :
    Pr (cellAt ar n Q r c) := by
  have h := readCell_grid ar n Q hlen r c hr0 hr hc0 hc
  unfold readCell at h
  rw [if_pos (index_nonneg n r c hr0 hc0)] at h
  exact hall _ (List.getElem?_mem h)

/-- A buffer of `n * n` cells all of whose grid cells hold `v` is the constant buffer. -/
theorem eq_replicate_of_cells {α : Type} (ar : FloatOps α) (n : Nat) (Q : Field α) (v : Cell α)
    (hlen : Q.length = n * n)
    (hcells : ∀ r c : Int, 0 ≤ r → r < n → 0 ≤ c → c < n → cellAt ar n Q r c = v) :
    Q = List.replicate (n * n) v := by
  rw [List.eq_replicate_iff]
  exact ⟨hlen, forall_mem_of_cells ar n Q (fun b => b = v) hlen hcells⟩

theorem cellAt_replicate {α : Type} (ar : FloatOps α) (n : Nat) (v : Cell α) (r c : Int)
    (hr0 : 0 ≤ r) (hr : r < n) (hc0 : 0 ≤ c) (hc : c < n) :
    cellAt ar n (List.replicate (n * n) v) r c = v := by
  have h0 := index_nonneg n r c hr0 hc0
  have h1 := index_lt n r c hr0 hr hc0 hc
  simp [cellAt, readCell, h0, List.getElem?_replicate, h1]

theorem wrap32_eq (z : Int) (h0 : -2147483648 ≤ z) (h1 : z ≤ 2147483647) : wrap32 z = z := by
  unfold wrap32
  omega

/-! ## Exact arithmetic -/

theorem constrain_exact (v : ℚ) : constrain exact v = clamp v 0 1 := by
  unfold constrain clamp
  simp only [exact, decide_eq_true_eq]
  by_cases h1 : (1 : ℚ) < v
  · have h2 : ¬ ((1 : ℚ) < 0) := by norm_num
    simp [h1, h2, min_eq_right (le_of_lt h1)]
  · have h1' : v ≤ 1 := not_lt.mp h1
    by_cases h0 : v < 0
    · simp [h1, h0, min_eq_left h1', max_eq_left (le_of_lt h0)]
    · simp [h1, h0, min_eq_left h1', max_eq_right (not_lt.mp h0)]

theorem laplaceTotal_exact (c l r u d ul dl ur dr : ℚ) :
    laplaceTotal exact c l r u d ul dl ur dr
      = -1 * c + (1 / 5) * (u + d + l + r) + (1 / 20) * (ul + ur + dl + dr) := by
  simp only [laplaceTotal, exact]
  ring

theorem stencil_exact (g : Int → Int → ℚ) (y x : Int) :
    stencil exact g y x = laplacian9 g y x := by
  rw [stencil, laplaceTotal_exact, laplacian9]

theorem newAB_exact (p : Params ℚ) (a b LA LB : ℚ) :
    (newA exact p a b LA, newB exact p a b LB) = grayScott p a b LA LB := by
  simp only [newA, newB, constrain_exact, grayScott]
  rfl

/-! ## Clamping -/

theorem constrain_binary32 (v : F32) : F32.inUnitOrNaN (constrain binary32 v) := by
  have h1 : rn 1 = F32.fin 1 := by decide!
  have h0 : rn 0 = F32.fin 0 := by decide!
  have h10 : ¬ ((1 : ℚ) < 0) := by norm_num
  unfold constrain
  simp only [binary32, h1, h0]
  cases v with
  | fin q =>
    by_cases hq1 : (1 : ℚ) < q
    · simp [F32.lt, hq1, h10, F32.inUnitOrNaN]
    · by_cases hq0 : q < 0
      · simp [F32.lt, hq1, hq0, F32.inUnitOrNaN]
      · simp only [F32.lt, hq1, hq0, decide_False, Bool.false_eq_true, if_false,
          F32.inUnitOrNaN]
        exact ⟨not_lt.mp hq0, not_lt.mp hq1⟩
  | pinf => simp [F32.lt, h10, F32.inUnitOrNaN]
  | ninf => simp [F32.lt, F32.inUnitOrNaN]
  | nan => simp [F32.lt, F32.inUnitOrNaN]

theorem step_inUnitOrNaN (p : Params F32) (n : Nat) (P : Field F32) (hlen : P.length = n * n)
    (hall : ∀ b ∈ P, F32.inUnitOrNaN b.1 ∧ F32.inUnitOrNaN b.2) :
    ∃ Q, step binary32 p n n P = some Q ∧ Q.length = n * n ∧
      ∀ b ∈ Q, F32.inUnitOrNaN b.1 ∧ F32.inUnitOrNaN b.2 := by
  refine step_preserves binary32 p n
    (fun s => ∀ b ∈ s, F32.inUnitOrNaN b.1 ∧ F32.inUnitOrNaN b.2) ?_ P hlen hall
  intro s i j _ _ _ _ _ hs b hb
  rcases List.mem_or_eq_of_mem_set hb with h | h
  · exact hs b h
  · rw [h]; exact ⟨constrain_binary32 _, constrain_binary32 _⟩

theorem splat_inUnitOrNaN (n : Nat) (P : Field F32) (hlen : P.length = n * n)
    (hall : ∀ b ∈ P, F32.inUnitOrNaN b.1 ∧ F32.inUnitOrNaN b.2) (x y size : Int) :
    ∃ Q, splat binary32 n n P x y size = some Q ∧ Q.length = n * n ∧
      ∀ b ∈ Q, F32.inUnitOrNaN b.1 ∧ F32.inUnitOrNaN b.2 := by
  have h1 : rn 1 = F32.fin 1 := by decide!
  have h0 : rn 0 = F32.fin 0 := by decide!
  obtain ⟨Q, hQ, hQlen, hcells⟩ := splat_square binary32 n P hlen x y size
  refine ⟨Q, hQ, hQlen, forall_mem_of_cells binary32 n Q _ hQlen ?_⟩
  intro r c hr0 hr hc0 hc
  rw [hcells r c hr0 hr hc0 hc]
  split
  · simp [binary32, h1, h0, F32.inUnitOrNaN]
  · exact cells_of_forall_mem binary32 n P _ hlen hall r c hr0 hr hc0 hc

theorem runEvents_inUnitOrNaN (n : Nat) (events : List (Event F32)) :
    ∀ P : Field F32, P.length = n * n →
      (∀ b ∈ P, F32.inUnitOrNaN b.1 ∧ F32.inUnitOrNaN b.2) →
      ∃ Q, runEvents binary32 n n events P = some Q ∧ Q.length = n * n ∧
        ∀ b ∈ Q, F32.inUnitOrNaN b.1 ∧ F32.inUnitOrNaN b.2 := by
  induction events with
  | nil => exact fun P hlen hall => ⟨P, rfl, hlen, hall⟩
  | cons e es ih =>
    intro P hlen hall
    cases e with
    | step p =>
      obtain ⟨P', h1, hlen', hall'⟩ := step_inUnitOrNaN p n P hlen hall
      obtain ⟨Q, h2, hQ⟩ := ih P' hlen' hall'
      exact ⟨Q, by simp [runEvents, h1, h2], hQ⟩
    | splat x y size =>
      obtain ⟨P', h1, hlen', hall'⟩ := splat_inUnitOrNaN n P hlen hall x y size
      obtain ⟨Q, h2, hQ⟩ := ih P' hlen' hall'
      exact ⟨Q, by simp [runEvents, h1, h2], hQ⟩

/-! ## The uniform buffer -/

theorem uniform_binary32 (m : Nat) :
    uniform binary32 m = List.replicate m (F32.fin 1, F32.fin 0) := by
  show List.replicate m (rn 1, rn 0) = _
  rw [rn_one, rn_zero]

theorem laplaceTotal_absLe (c l r u d ul dl ur dr : F32)
    (hc : F32.absLe 1 c) (hl : F32.absLe 1 l) (hr : F32.absLe 1 r) (hu : F32.absLe 1 u)
    (hd : F32.absLe 1 d) (hul : F32.absLe 1 ul) (hdl : F32.absLe 1 dl) (hur : F32.absLe 1 ur)
    (hdr : F32.absLe 1 dr) :
    F32.absLe (2 ^ 8) (laplaceTotal binary32 c l r u d ul dl ur dr) := by
  have w1 : F32.absLe 1 (rn (-1)) := by
    have : rn (-1) = F32.fin (-1) := by decide!
    rw [this]; simp [F32.absLe]
  have w5 : F32.absLe 1 (rn (1 / 5)) := by
    have : rn (1 / 5) = F32.fin (13421773 / 67108864) := by decide!
    rw [this]; simp only [F32.absLe]; rw [abs_le]; constructor <;> norm_num
  have w20 : F32.absLe 1 (rn (1 / 20)) := by
    have : rn (1 / 20) = F32.fin (13421773 / 268435456) := by decide!
    rw [this]; simp only [F32.absLe]; rw [abs_le]; constructor <;> norm_num
  have z0 : F32.absLe 0 (rn 0) := by rw [rn_zero]; simp [F32.absLe]
  have prod : ∀ v w : F32, F32.absLe 1 v → F32.absLe 1 w → F32.absLe 1 (F32.mul v w) :=
    fun v w hv hw => by
      have := mul_absLe 0 (by norm_num) 1 1 v w hv hw (by norm_num)
      simpa using this
  have t1 := add_absLe 0 (by norm_num) 0 1 _ _ z0 (prod c _ hc w1) (by norm_num)
  have t2 := add_absLe 1 (by norm_num) _ 1 _ _ t1 (prod l _ hl w5) (by norm_num)
  have t3 := add_absLe 2 (by norm_num) _ 1 _ _ t2 (prod r _ hr w5) (by norm_num)
  have t4 := add_absLe 3 (by norm_num) _ 1 _ _ t3 (prod u _ hu w5) (by norm_num)
  have t5 := add_absLe 4 (by norm_num) _ 1 _ _ t4 (prod d _ hd w5) (by norm_num)
  have t6 := add_absLe 5 (by norm_num) _ 1 _ _ t5 (prod ul _ hul w20) (by norm_num)
  have t7 := add_absLe 6 (by norm_num) _ 1 _ _ t6 (prod dl _ hdl w20) (by norm_num)
  have t8 := add_absLe 7 (by norm_num) _ 1 _ _ t7 (prod ur _ hur w20) (by norm_num)
  exact add_absLe 8 (by norm_num) _ 1 _ _ t8 (prod dr _ hdr w20) (by norm_num)

theorem constrain_fin (z : ℚ) : F32.inUnit (constrain binary32 (F32.fin z)) := by
  have h10 : ¬ ((1 : ℚ) < 0) := by norm_num
  unfold constrain
  simp only [binary32, rn_one, rn_zero]
  by_cases hq1 : (1 : ℚ) < z
  · simp [F32.lt, hq1, h10, F32.inUnit]
  · by_cases hq0 : z < 0
    · simp [F32.lt, hq1, hq0, F32.inUnit]
    · simp only [F32.lt, hq1, hq0, decide_False, Bool.false_eq_true, if_false, F32.inUnit]
      exact ⟨not_lt.mp hq0, not_lt.mp hq1⟩

theorem one_sub_absLe (a : F32) (ha : F32.inUnit a) : F32.absLe 1 (F32.sub (rn 1) a) := by
  cases a with
  | fin q =>
    rw [rn_one]
    have := rn_absLe 0 (by norm_num) (1 + -q)
      (by rw [abs_le]; have h1 := ha.1; have h2 := ha.2; constructor <;> linarith)
    simpa using this
  | pinf => exact absurd ha (by simp [F32.inUnit])
  | ninf => exact absurd ha (by simp [F32.inUnit])
  | nan => exact absurd ha (by simp [F32.inUnit])

theorem newA_inUnit (p : Params F32) (hp : boundedParams p) (a b lapA : F32)
    (ha : F32.inUnit a) (hb : F32.inUnit b) (hl : F32.absLe (2 ^ 8) lapA) :
    F32.inUnit (newA binary32 p a b lapA) := by
  obtain ⟨hDa, _, hf, _, hdt⟩ := hp
  have ha1 := absLe_of_inUnit a ha
  have hb1 := absLe_of_inUnit b hb
  have m1 := mul_absLe 38 (by norm_num) _ _ p.Da lapA hDa hl (by norm_num)
  have m2a := mul_absLe 0 (by norm_num) _ _ a b ha1 hb1 (by norm_num)
  have m2 := mul_absLe 0 (by norm_num) _ _ _ b m2a hb1 (by norm_num)
  have s1 := sub_absLe 39 (by norm_num) _ _ _ _ m1 m2 (by norm_num)
  have d := one_sub_absLe a ha
  have m3 := mul_absLe 30 (by norm_num) _ _ p.f _ hf d (by norm_num)
  have m4 := mul_absLe 60 (by norm_num) _ _ _ p.dt m3 hdt (by norm_num)
  have s2 := add_absLe 61 (by norm_num) _ _ _ _ s1 m4 (by norm_num)
  have s3 := add_absLe 62 (by norm_num) _ _ a _ ha1 s2 (by norm_num)
  obtain ⟨z, hz, _⟩ := absLe_elim _ _ s3
  show F32.inUnit (constrain binary32 (F32.add a (F32.add (F32.sub (F32.mul p.Da lapA)
    (F32.mul (F32.mul a b) b)) (F32.mul (F32.mul p.f (F32.sub (rn 1) a)) p.dt))))
  rw [hz]
  exact constrain_fin z

theorem newB_inUnit (p : Params F32) (hp : boundedParams p) (a b lapB : F32)
    (ha : F32.inUnit a) (hb : F32.inUnit b) (hl : F32.absLe (2 ^ 8) lapB) :
    F32.inUnit (newB binary32 p a b lapB) := by
  obtain ⟨_, hDb, hf, hk, hdt⟩ := hp
  have ha1 := absLe_of_inUnit a ha
  have hb1 := absLe_of_inUnit b hb
  have m1 := mul_absLe 38 (by norm_num) _ _ p.Db lapB hDb hl (by norm_num)
  have m2a := mul_absLe 0 (by norm_num) _ _ a b ha1 hb1 (by norm_num)
  have m2 := mul_absLe 0 (by norm_num) _ _ _ b m2a hb1 (by norm_num)
  have s1 := add_absLe 39 (by norm_num) _ _ _ _ m1 m2 (by norm_num)
  have kf := add_absLe 31 (by norm_num) _ _ p.k p.f hk hf (by norm_num)
  have m3 := mul_absLe 31 (by norm_num) _ _ b _ hb1 kf (by norm_num)
  have m4 := mul_absLe 61 (by norm_num) _ _ _ p.dt m3 hdt (by norm_num)
  have s2 := sub_absLe 62 (by norm_num) _ _ _ _ s1 m4 (by norm_num)
  have s3 := add_absLe 63 (by norm_num) _ _ b _ hb1 s2 (by norm_num)
  obtain ⟨z, hz, _⟩ := absLe_elim _ _ s3
  show F32.inUnit (constrain binary32 (F32.add b (F32.sub (F32.add (F32.mul p.Db lapB)
    (F32.mul (F32.mul a b) b)) (F32.mul (F32.mul b (F32.add p.k p.f)) p.dt))))
  rw [hz]
  exact constrain_fin z

theorem step_inUnit (p : Params F32) (hp : boundedParams p) (n : Nat) (P : Field F32)
    (hlen : P.length = n * n) (hall : ∀ b ∈ P, F32.inUnit b.1 ∧ F32.inUnit b.2) :
    ∃ Q, step binary32 p n n P = some Q ∧ Q.length = n * n ∧
      ∀ b ∈ Q, F32.inUnit b.1 ∧ F32.inUnit b.2 := by
  refine step_preserves binary32 p n
    (fun s => ∀ b ∈ s, F32.inUnit b.1 ∧ F32.inUnit b.2) ?_ P hlen hall
  intro s i j hs hi1 hi hj1 hj hinv b hb
  rcases List.mem_or_eq_of_mem_set hb with h | h
  · exact hinv b h
  · rw [h]
    have hc : ∀ r c : Int, 0 ≤ r → r < n → 0 ≤ c → c < n →
        F32.inUnit (cellAt binary32 n s r c).1 ∧ F32.inUnit (cellAt binary32 n s r c).2 :=
      fun r c hr0 hr hc0 hc => cells_of_forall_mem binary32 n s _ hs hinv r c hr0 hr hc0 hc
    have h00 := hc i j (by omega) (by omega) (by omega) (by omega)
    have h0m := hc i (j - 1) (by omega) (by omega) (by omega) (by omega)
    have h0p := hc i (j + 1) (by omega) (by omega) (by omega) (by omega)
    have hm0 := hc (i - 1) j (by omega) (by omega) (by omega) (by omega)
    have hp0 := hc (i + 1) j (by omega) (by omega) (by omega) (by omega)
    have hmm := hc (i - 1) (j - 1) (by omega) (by omega) (by omega) (by omega)
    have hpm := hc (i + 1) (j - 1) (by omega) (by omega) (by omega) (by omega)
    have hmp := hc (i - 1) (j + 1) (by omega) (by omega) (by omega) (by omega)
    have hpp := hc (i + 1) (j + 1) (by omega) (by omega) (by omega) (by omega)
    exact ⟨newA_inUnit p hp _ _ _ h00.1 h00.2
        (laplaceTotal_absLe _ _ _ _ _ _ _ _ _ (absLe_of_inUnit _ h00.1)
          (absLe_of_inUnit _ h0m.1) (absLe_of_inUnit _ h0p.1) (absLe_of_inUnit _ hm0.1)
          (absLe_of_inUnit _ hp0.1) (absLe_of_inUnit _ hmm.1) (absLe_of_inUnit _ hpm.1)
          (absLe_of_inUnit _ hmp.1) (absLe_of_inUnit _ hpp.1)),
      newB_inUnit p hp _ _ _ h00.1 h00.2
        (laplaceTotal_absLe _ _ _ _ _ _ _ _ _ (absLe_of_inUnit _ h00.2)
          (absLe_of_inUnit _ h0m.2) (absLe_of_inUnit _ h0p.2) (absLe_of_inUnit _ hm0.2)
          (absLe_of_inUnit _ hp0.2) (absLe_of_inUnit _ hmm.2) (absLe_of_inUnit _ hpm.2)
          (absLe_of_inUnit _ hmp.2) (absLe_of_inUnit _ hpp.2))⟩

theorem splat_inUnit (n : Nat) (P : Field F32) (hlen : P.length = n * n)
    (hall : ∀ b ∈ P, F32.inUnit b.1 ∧ F32.inUnit b.2) (x y size : Int) :
    ∃ Q, splat binary32 n n P x y size = some Q ∧ Q.length = n * n ∧
      ∀ b ∈ Q, F32.inUnit b.1 ∧ F32.inUnit b.2 := by
  obtain ⟨Q, hQ, hQlen, hcells⟩ := splat_square binary32 n P hlen x y size
  refine ⟨Q, hQ, hQlen, forall_mem_of_cells binary32 n Q _ hQlen ?_⟩
  intro r c hr0 hr hc0 hc
  rw [hcells r c hr0 hr hc0 hc]
  split
  · simp [binary32, rn_one, rn_zero, F32.inUnit]
  · exact cells_of_forall_mem binary32 n P _ hlen hall r c hr0 hr hc0 hc

theorem runEvents_inUnit (n : Nat) (events : List (Event F32))
    (hev : ∀ e ∈ events, boundedEvent e) :
    ∀ P : Field F32, P.length = n * n → (∀ b ∈ P, F32.inUnit b.1 ∧ F32.inUnit b.2) →
      ∀ Q, runEvents binary32 n n events P = some Q →
        ∀ b ∈ Q, F32.inUnit b.1 ∧ F32.inUnit b.2 := by
  induction events with
  | nil =>
    intro P _ hall Q hQ
    simp [runEvents] at hQ
    subst hQ
    exact hall
  | cons e es ih =>
    intro P hlen hall Q hQ
    have hes : ∀ e' ∈ es, boundedEvent e' := fun e' he' => hev e' (List.mem_cons_of_mem _ he')
    cases e with
    | step p =>
      have hp : boundedParams p := hev (Event.step p) (List.mem_cons_self _ _)
      obtain ⟨P', h1, hlen', hall'⟩ := step_inUnit p hp n P hlen hall
      simp only [runEvents, h1] at hQ
      exact ih hes P' hlen' hall' Q hQ
    | splat x y size =>
      obtain ⟨P', h1, hlen', hall'⟩ := splat_inUnit n P hlen hall x y size
      simp only [runEvents, h1] at hQ
      exact ih hes P' hlen' hall' Q hQ


/-! ## Rounding error of the Laplacian -/

/-- One accumulation `total += c * w` of the Laplacian: if `total` is within `ε` of the exact
partial sum `T`, the new total is within `ε + δ + 3 / 2^24` of `T + c * w`, where `δ` bounds the
error of the binary32 weight. -/
theorem accumulate_error (tz T ε c w wf δ : ℚ) (herr : |tz - T| ≤ ε) (hT : |T| ≤ 2)
    (hε : ε ≤ 1 / 2) (hc0 : 0 ≤ c) (hc1 : c ≤ 1) (hw : rn w = F32.fin wf) (hwf : |wf| ≤ 1)
    (hδ : |wf - w| ≤ δ) :
    ∃ z, F32.add (F32.fin tz) (F32.mul (F32.fin c) (rn w)) = F32.fin z ∧
      |z - (T + c * w)| ≤ ε + δ + 3 / 2 ^ 24 := by
  have hcw : |c * wf| ≤ 1 := by
    rw [abs_mul, abs_of_nonneg hc0]
    calc c * |wf| ≤ 1 * 1 := mul_le_mul hc1 hwf (abs_nonneg _) (by norm_num)
      _ = 1 := by norm_num
  obtain ⟨pz, hp, hperr⟩ := rn_error_lt2 (c * wf) (by linarith)
  have h24 : (1 : ℚ) / 2 ^ 24 ≤ 1 / 4 := by norm_num
  have hpz : |pz| ≤ 5 / 4 := by
    have := abs_sub_abs_le_abs_sub pz (c * wf)
    linarith
  have htz : |tz| ≤ 5 / 2 := by
    have := abs_sub_abs_le_abs_sub tz T
    linarith
  have hsum : |tz + pz| < 4 := by
    have := abs_add tz pz
    linarith
  obtain ⟨z, hz, hzerr⟩ := rn_error_lt4 (tz + pz) hsum
  refine ⟨z, ?_, ?_⟩
  · rw [hw]
    show F32.add (F32.fin tz) (rn (c * wf)) = F32.fin z
    rw [hp]
    exact hz
  · have hcδ : |c * wf - c * w| ≤ δ := by
      rw [← mul_sub, abs_mul, abs_of_nonneg hc0]
      calc c * |wf - w| ≤ 1 * δ :=
            mul_le_mul hc1 hδ (abs_nonneg _) (by norm_num)
        _ = δ := by norm_num
    have e : z - (T + c * w)
        = (z - (tz + pz)) + (tz - T) + (pz - c * wf) + (c * wf - c * w) := by ring
    rw [e]
    have h23 : (1 : ℚ) / 2 ^ 23 = 2 / 2 ^ 24 := by norm_num
    calc |(z - (tz + pz)) + (tz - T) + (pz - c * wf) + (c * wf - c * w)|
        ≤ |z - (tz + pz)| + |tz - T| + |pz - c * wf| + |c * wf - c * w| := by
          refine le_trans (abs_add _ _) ?_
          refine add_le_add_right (le_trans (abs_add _ _) ?_) _
          exact add_le_add_right (abs_add _ _) _
      _ ≤ ε + δ + 3 / 2 ^ 24 := by linarith

/-- The value `laplaceA` / `laplaceB` accumulates from nine numbers in `[0, 1]` is finite and
within `2^-19` of the exact kernel value. -/
theorem laplaceTotal_error (c l r u d ul dl ur dr : ℚ)
    (hc : 0 ≤ c ∧ c ≤ 1) (hl : 0 ≤ l ∧ l ≤ 1) (hr : 0 ≤ r ∧ r ≤ 1) (hu : 0 ≤ u ∧ u ≤ 1)
    (hd : 0 ≤ d ∧ d ≤ 1) (hul : 0 ≤ ul ∧ ul ≤ 1) (hdl : 0 ≤ dl ∧ dl ≤ 1)
    (hur : 0 ≤ ur ∧ ur ≤ 1) (hdr : 0 ≤ dr ∧ dr ≤ 1) :
    ∃ z, laplaceTotal binary32 (F32.fin c) (F32.fin l) (F32.fin r) (F32.fin u) (F32.fin d)
        (F32.fin ul) (F32.fin dl) (F32.fin ur) (F32.fin dr) = F32.fin z ∧
      |z - (-1 * c + (1 / 5) * (u + d + l + r) + (1 / 20) * (ul + ur + dl + dr))|
        ≤ 1 / 2 ^ 19 := by
  have w1 : rn (-1) = F32.fin (-1) := by decide!
  have w5 : rn (1 / 5) = F32.fin (13421773 / 67108864) := by decide!
  have w20 : rn (1 / 20) = F32.fin (13421773 / 268435456) := by decide!
  have a1 : |(-1 : ℚ)| ≤ 1 := by norm_num
  have a5 : |(13421773 / 67108864 : ℚ)| ≤ 1 := by rw [abs_le]; constructor <;> norm_num
  have a20 : |(13421773 / 268435456 : ℚ)| ≤ 1 := by rw [abs_le]; constructor <;> norm_num
  have d1 : |(-1 : ℚ) - -1| ≤ 0 := by norm_num
  have d5 : |(13421773 / 67108864 : ℚ) - 1 / 5| ≤ 1 / 2 ^ 28 := by
    rw [abs_le]; constructor <;> norm_num
  have d20 : |(13421773 / 268435456 : ℚ) - 1 / 20| ≤ 1 / 2 ^ 30 := by
    rw [abs_le]; constructor <;> norm_num
  obtain ⟨z1, e1, b1⟩ := accumulate_error 0 0 0 c (-1) (-1) 0 (by norm_num) (by norm_num)
    (by norm_num) hc.1 hc.2 w1 a1 d1
  obtain ⟨z2, e2, b2⟩ := accumulate_error z1 (0 + c * -1) _ l (1 / 5) _ _ b1
    (by rw [abs_le]; constructor <;> linarith) (by norm_num) hl.1 hl.2 w5 a5 d5
  obtain ⟨z3, e3, b3⟩ := accumulate_error z2 _ _ r (1 / 5) _ _ b2
    (by rw [abs_le]; constructor <;> linarith) (by norm_num) hr.1 hr.2 w5 a5 d5
  obtain ⟨z4, e4, b4⟩ := accumulate_error z3 _ _ u (1 / 5) _ _ b3
    (by rw [abs_le]; constructor <;> linarith) (by norm_num) hu.1 hu.2 w5 a5 d5
  obtain ⟨z5, e5, b5⟩ := accumulate_error z4 _ _ d (1 / 5) _ _ b4
    (by rw [abs_le]; constructor <;> linarith) (by norm_num) hd.1 hd.2 w5 a5 d5
  obtain ⟨z6, e6, b6⟩ := accumulate_error z5 _ _ ul (1 / 20) _ _ b5
    (by rw [abs_le]; constructor <;> linarith) (by norm_num) hul.1 hul.2 w20 a20 d20
  obtain ⟨z7, e7, b7⟩ := accumulate_error z6 _ _ dl (1 / 20) _ _ b6
    (by rw [abs_le]; constructor <;> linarith) (by norm_num) hdl.1 hdl.2 w20 a20 d20
  obtain ⟨z8, e8, b8⟩ := accumulate_error z7 _ _ ur (1 / 20) _ _ b7
    (by rw [abs_le]; constructor <;> linarith) (by norm_num) hur.1 hur.2 w20 a20 d20
  obtain ⟨z9, e9, b9⟩ := accumulate_error z8 _ _ dr (1 / 20) _ _ b8
    (by rw [abs_le]; constructor <;> linarith) (by norm_num) hdr.1 hdr.2 w20 a20 d20
  refine ⟨z9, ?_, ?_⟩
  · show F32.add (F32.add (F32.add (F32.add (F32.add (F32.add (F32.add (F32.add (F32.add (rn 0)
      (F32.mul (F32.fin c) (rn (-1)))) (F32.mul (F32.fin l) (rn (1 / 5))))
      (F32.mul (F32.fin r) (rn (1 / 5)))) (F32.mul (F32.fin u) (rn (1 / 5))))
      (F32.mul (F32.fin d) (rn (1 / 5)))) (F32.mul (F32.fin ul) (rn (1 / 20))))
      (F32.mul (F32.fin dl) (rn (1 / 20)))) (F32.mul (F32.fin ur) (rn (1 / 20))))
      (F32.mul (F32.fin dr) (rn (1 / 20))) = F32.fin z9
    rw [rn_zero, e1, e2, e3, e4, e5, e6, e7, e8, e9]
  · have e : -1 * c + (1 / 5) * (u + d + l + r) + (1 / 20) * (ul + ur + dl + dr)
        = 0 + c * -1 + l * (1 / 5) + r * (1 / 5) + u * (1 / 5) + d * (1 / 5) + ul * (1 / 20)
          + dl * (1 / 20) + ur * (1 / 20) + dr * (1 / 20) := by ring
    rw [e]
    refine le_trans b9 ?_
    norm_num


/-! ## The uniform buffer in binary32 -/

theorem inUnit_elim (v : F32) (h : F32.inUnit v) : ∃ q, v = F32.fin q ∧ 0 ≤ q ∧ q ≤ 1 := by
  cases v with
  | fin q => exact ⟨q, rfl, h.1, h.2⟩
  | pinf => exact absurd h (by simp [F32.inUnit])
  | ninf => exact absurd h (by simp [F32.inUnit])
  | nan => exact absurd h (by simp [F32.inUnit])

theorem lapA_error (n : Nat) (s : Field F32) (hlen : s.length = n * n)
    (hall : ∀ cell ∈ s, F32.inUnit cell.1 ∧ F32.inUnit cell.2) (y x : Int)
    (hy1 : 1 ≤ y) (hy : y + 1 < n) (hx1 : 1 ≤ x) (hx : x + 1 < n) :
    ∃ z, lapA binary32 n s y x = F32.fin z ∧
      |z - laplacian9 (fun r c => (cellAt binary32 n s r c).1.toRat) y x| ≤ 1 / 2 ^ 19 := by
  have hc : ∀ r c : Int, 0 ≤ r → r < n → 0 ≤ c → c < n →
      ∃ q, (cellAt binary32 n s r c).1 = F32.fin q ∧ 0 ≤ q ∧ q ≤ 1 :=
    fun r c hr0 hr hc0 hc =>
      inUnit_elim _ (cells_of_forall_mem binary32 n s _ hlen hall r c hr0 hr hc0 hc).1
  obtain ⟨q00, e00, h00⟩ := hc y x (by omega) (by omega) (by omega) (by omega)
  obtain ⟨q0m, e0m, h0m⟩ := hc y (x - 1) (by omega) (by omega) (by omega) (by omega)
  obtain ⟨q0p, e0p, h0p⟩ := hc y (x + 1) (by omega) (by omega) (by omega) (by omega)
  obtain ⟨qm0, em0, hm0⟩ := hc (y - 1) x (by omega) (by omega) (by omega) (by omega)
  obtain ⟨qp0, ep0, hp0⟩ := hc (y + 1) x (by omega) (by omega) (by omega) (by omega)
  obtain ⟨qmm, emm, hmm⟩ := hc (y - 1) (x - 1) (by omega) (by omega) (by omega) (by omega)
  obtain ⟨qpm, epm, hpm⟩ := hc (y + 1) (x - 1) (by omega) (by omega) (by omega) (by omega)
  obtain ⟨qmp, emp, hmp⟩ := hc (y - 1) (x + 1) (by omega) (by omega) (by omega) (by omega)
  obtain ⟨qpp, epp, hpp⟩ := hc (y + 1) (x + 1) (by omega) (by omega) (by omega) (by omega)
  obtain ⟨z, hz, herr⟩ := laplaceTotal_error q00 q0m q0p qm0 qp0 qmm qpm qmp qpp
    h00 h0m h0p hm0 hp0 hmm hpm hmp hpp
  refine ⟨z, ?_, ?_⟩
  · unfold lapA
    rw [e00, e0m, e0p, em0, ep0, emm, epm, emp, epp]
    exact hz
  · unfold laplacian9
    simp only [e00, e0m, e0p, em0, ep0, emm, epm, emp, epp, F32.toRat]
    exact herr

theorem lapB_error (n : Nat) (s : Field F32) (hlen : s.length = n * n)
    (hall : ∀ cell ∈ s, F32.inUnit cell.1 ∧ F32.inUnit cell.2) (y x : Int)
    (hy1 : 1 ≤ y) (hy : y + 1 < n) (hx1 : 1 ≤ x) (hx : x + 1 < n) :
    ∃ z, lapB binary32 n s y x = F32.fin z ∧
      |z - laplacian9 (fun r c => (cellAt binary32 n s r c).2.toRat) y x| ≤ 1 / 2 ^ 19 := by
  have hc : ∀ r c : Int, 0 ≤ r → r < n → 0 ≤ c → c < n →
      ∃ q, (cellAt binary32 n s r c).2 = F32.fin q ∧ 0 ≤ q ∧ q ≤ 1 :=
    fun r c hr0 hr hc0 hc =>
      inUnit_elim _ (cells_of_forall_mem binary32 n s _ hlen hall r c hr0 hr hc0 hc).2
  obtain ⟨q00, e00, h00⟩ := hc y x (by omega) (by omega) (by omega) (by omega)
  obtain ⟨q0m, e0m, h0m⟩ := hc y (x - 1) (by omega) (by omega) (by omega) (by omega)
  obtain ⟨q0p, e0p, h0p⟩ := hc y (x + 1) (by omega) (by omega) (by omega) (by omega)
  obtain ⟨qm0, em0, hm0⟩ := hc (y - 1) x (by omega) (by omega) (by omega) (by omega)
  obtain ⟨qp0, ep0, hp0⟩ := hc (y + 1) x (by omega) (by omega) (by omega) (by omega)
  obtain ⟨qmm, emm, hmm⟩ := hc (y - 1) (x - 1) (by omega) (by omega) (by omega) (by omega)
  obtain ⟨qpm, epm, hpm⟩ := hc (y + 1) (x - 1) (by omega) (by omega) (by omega) (by omega)
  obtain ⟨qmp, emp, hmp⟩ := hc (y - 1) (x + 1) (by omega) (by omega) (by omega) (by omega)
  obtain ⟨qpp, epp, hpp⟩ := hc (y + 1) (x + 1) (by omega) (by omega) (by omega) (by omega)
  obtain ⟨z, hz, herr⟩ := laplaceTotal_error q00 q0m q0p qm0 qp0 qmm qpm qmp qpp
    h00 h0m h0p hm0 hp0 hmm hpm hmp hpp
  refine ⟨z, ?_, ?_⟩
  · unfold lapB
    rw [e00, e0m, e0p, em0, ep0, emm, epm, emp, epp]
    exact hz
  · unfold laplacian9
    simp only [e00, e0m, e0p, em0, ep0, emm, epm, emp, epp, F32.toRat]
    exact herr

/-! ## Rounding error of the update formulas -/

/-- Rounding a number of magnitude below `8` moves it by at most `2^-22`. -/
theorem rn_error_lt8 (x : ℚ) (h : |x| < 8) : ∃ z, rn x = F32.fin z ∧ |z - x| ≤ 1 / 2 ^ 22 := by
  have herr := roundToQuantum_error x 128 (by
    have : |x| * 2 ^ 149 < 8 * 2 ^ 149 := by
      apply mul_lt_mul_of_pos_right h; positivity
    calc |x| * 2 ^ 149 < 8 * 2 ^ 149 := this
      _ = 2 ^ (128 + 24) := by norm_num)
  have he : (2 : ℚ) ^ 128 / 2 ^ 150 = 1 / 2 ^ 22 := by norm_num
  rw [he] at herr
  have hb := abs_le.mp herr
  have hx := abs_lt.mp h
  refine ⟨roundToQuantum x, ?_, herr⟩
  unfold rn
  simp only
  have h1 : ¬ ((2 : ℚ) ^ 128 ≤ roundToQuantum x) := by
    intro hc
    have : (9 : ℚ) ≤ 2 ^ 128 := by norm_num
    have : (1 : ℚ) / 2 ^ 22 ≤ 1 := by norm_num
    linarith
  have h2 : ¬ (roundToQuantum x ≤ -(2 : ℚ) ^ 128) := by
    intro hc
    have : (9 : ℚ) ≤ 2 ^ 128 := by norm_num
    have : (1 : ℚ) / 2 ^ 22 ≤ 1 := by norm_num
    linarith
  rw [if_neg h1, if_neg h2]

/-- Error of a binary32 sum of magnitude below `8`. -/
theorem add_error (x y X Y ex ey : ℚ) (hx : |x - X| ≤ ex) (hy : |y - Y| ≤ ey)
    (hlt : |x + y| < 8) :
    ∃ z, F32.add (F32.fin x) (F32.fin y) = F32.fin z ∧ |z - (X + Y)| ≤ ex + ey + 1 / 2 ^ 22 := by
  obtain ⟨z, hz, hzerr⟩ := rn_error_lt8 (x + y) hlt
  refine ⟨z, hz, ?_⟩
  have e : z - (X + Y) = (z - (x + y)) + (x - X) + (y - Y) := by ring
  rw [e]
  calc |(z - (x + y)) + (x - X) + (y - Y)|
      ≤ |z - (x + y)| + |x - X| + |y - Y| :=
        le_trans (abs_add _ _) (add_le_add_right (abs_add _ _) _)
    _ ≤ ex + ey + 1 / 2 ^ 22 := by linarith

/-- Error of a binary32 difference of magnitude below `8`. -/
theorem sub_error (x y X Y ex ey : ℚ) (hx : |x - X| ≤ ex) (hy : |y - Y| ≤ ey)
    (hlt : |x - y| < 8) :
    ∃ z, F32.sub (F32.fin x) (F32.fin y) = F32.fin z ∧ |z - (X - Y)| ≤ ex + ey + 1 / 2 ^ 22 := by
  have hlt' : |x + -y| < 8 := by rw [← sub_eq_add_neg]; exact hlt
  obtain ⟨z, hz, hzerr⟩ := rn_error_lt8 (x + -y) hlt'
  refine ⟨z, hz, ?_⟩
  have e : z - (X - Y) = (z - (x + -y)) + (x - X) - (y - Y) := by ring
  rw [e]
  calc |(z - (x + -y)) + (x - X) - (y - Y)|
      ≤ |z - (x + -y)| + |x - X| + |y - Y| :=
        le_trans (abs_sub _ _) (add_le_add_right (abs_add _ _) _)
    _ ≤ ex + ey + 1 / 2 ^ 22 := by linarith

/-- Error of a binary32 product of magnitude below `8`. -/
theorem mul_error (x y X Y ex ey MX My : ℚ) (hx : |x - X| ≤ ex) (hy : |y - Y| ≤ ey)
    (hX : |X| ≤ MX) (hy' : |y| ≤ My) (hlt : |x * y| < 8) :
    ∃ z, F32.mul (F32.fin x) (F32.fin y) = F32.fin z ∧
      |z - X * Y| ≤ MX * ey + My * ex + 1 / 2 ^ 22 := by
  obtain ⟨z, hz, hzerr⟩ := rn_error_lt8 (x * y) hlt
  refine ⟨z, hz, ?_⟩
  have e : z - X * Y = (z - x * y) + X * (y - Y) + (x - X) * y := by ring
  rw [e]
  have h1 : |X * (y - Y)| ≤ MX * ey := by
    rw [abs_mul]
    exact mul_le_mul hX hy (abs_nonneg _) (le_trans (abs_nonneg _) hX)
  have h2 : |(x - X) * y| ≤ My * ex := by
    rw [abs_mul, mul_comm]
    exact mul_le_mul hy' hx (abs_nonneg _) (le_trans (abs_nonneg _) hy')
  calc |(z - x * y) + X * (y - Y) + (x - X) * y|
      ≤ |z - x * y| + |X * (y - Y)| + |(x - X) * y| :=
        le_trans (abs_add _ _) (add_le_add_right (abs_add _ _) _)
    _ ≤ MX * ey + My * ex + 1 / 2 ^ 22 := by linarith

theorem constrain_fin_eq (z : ℚ) : constrain binary32 (F32.fin z) = F32.fin (clamp z 0 1) := by
  have h10 : ¬ ((1 : ℚ) < 0) := by norm_num
  unfold constrain clamp
  simp only [binary32, rn_one, rn_zero]
  by_cases hq1 : (1 : ℚ) < z
  · simp [F32.lt, hq1, h10, min_eq_right (le_of_lt hq1)]
  · have hz1 : z ≤ 1 := not_lt.mp hq1
    by_cases hq0 : z < 0
    · simp [F32.lt, hq1, hq0, min_eq_left hz1, max_eq_left (le_of_lt hq0)]
    · simp [F32.lt, hq1, hq0, min_eq_left hz1, max_eq_right (not_lt.mp hq0)]

theorem clamp_lipschitz (z w : ℚ) : |clamp z 0 1 - clamp w 0 1| ≤ |z - w| := by
  unfold clamp
  rw [max_comm 0, max_comm 0]
  exact le_trans (abs_max_sub_max_le_abs (min z 1) (min w 1) 0)
    (by simpa using abs_min_sub_min_le_max z 1 w 1)

theorem near_abs (x X e M : ℚ) (h : |x - X| ≤ e) (hX : |X| ≤ M) : |x| ≤ M + e := by
  have e1 : x = X + (x - X) := by ring
  rw [e1]
  exact le_trans (abs_add _ _) (add_le_add hX h)

/-- A binary32 product tracked against the exact product. -/
theorem mul_near (x y X Y ex ey MX MY : ℚ) (hx : |x - X| ≤ ex) (hX : |X| ≤ MX)
    (hy : |y - Y| ≤ ey) (hY : |Y| ≤ MY) (hlt : (MX + ex) * (MY + ey) < 8) :
    ∃ z, F32.mul (F32.fin x) (F32.fin y) = F32.fin z ∧
      |z - X * Y| ≤ MX * ey + (MY + ey) * ex + 1 / 2 ^ 22 ∧ |X * Y| ≤ MX * MY := by
  have hxa := near_abs x X ex MX hx hX
  have hya := near_abs y Y ey MY hy hY
  have hxy : |x * y| < 8 := by
    rw [abs_mul]
    exact lt_of_le_of_lt
      (mul_le_mul hxa hya (abs_nonneg _) (le_trans (abs_nonneg _) hxa)) hlt
  obtain ⟨z, hz, hzerr⟩ := mul_error x y X Y ex ey MX (MY + ey) hx hy hX hya hxy
  refine ⟨z, hz, hzerr, ?_⟩
  rw [abs_mul]
  exact mul_le_mul hX hY (abs_nonneg _) (le_trans (abs_nonneg _) hX)

/-- A binary32 sum tracked against the exact sum. -/
theorem add_near (x y X Y ex ey MX MY : ℚ) (hx : |x - X| ≤ ex) (hX : |X| ≤ MX)
    (hy : |y - Y| ≤ ey) (hY : |Y| ≤ MY) (hlt : (MX + ex) + (MY + ey) < 8) :
    ∃ z, F32.add (F32.fin x) (F32.fin y) = F32.fin z ∧
      |z - (X + Y)| ≤ ex + ey + 1 / 2 ^ 22 ∧ |X + Y| ≤ MX + MY := by
  have hxa := near_abs x X ex MX hx hX
  have hya := near_abs y Y ey MY hy hY
  have hxy : |x + y| < 8 :=
    lt_of_le_of_lt (le_trans (abs_add _ _) (add_le_add hxa hya)) hlt
  obtain ⟨z, hz, hzerr⟩ := add_error x y X Y ex ey hx hy hxy
  exact ⟨z, hz, hzerr, le_trans (abs_add _ _) (add_le_add hX hY)⟩

/-- A binary32 difference tracked against the exact difference. -/
theorem sub_near (x y X Y ex ey MX MY : ℚ) (hx : |x - X| ≤ ex) (hX : |X| ≤ MX)
    (hy : |y - Y| ≤ ey) (hY : |Y| ≤ MY) (hlt : (MX + ex) + (MY + ey) < 8) :
    ∃ z, F32.sub (F32.fin x) (F32.fin y) = F32.fin z ∧
      |z - (X - Y)| ≤ ex + ey + 1 / 2 ^ 22 ∧ |X - Y| ≤ MX + MY := by
  have hxa := near_abs x X ex MX hx hX
  have hya := near_abs y Y ey MY hy hY
  have hxy : |x - y| < 8 :=
    lt_of_le_of_lt (le_trans (abs_sub _ _) (add_le_add hxa hya)) hlt
  obtain ⟨z, hz, hzerr⟩ := sub_error x y X Y ex ey hx hy hxy
  exact ⟨z, hz, hzerr, le_trans (abs_sub _ _) (add_le_add hX hY)⟩

theorem abs_unit (a : ℚ) (ha : 0 ≤ a ∧ a ≤ 1) : |a| ≤ 1 := by
  rw [abs_le]; constructor <;> linarith [ha.1, ha.2]

/-- The binary32 value of the new A is within `2^-17` of the exact formula, for a cell in
`[0, 1]`, a Laplacian within `2^-19` of an exact one of magnitude at most `1`, and parameters
with `|Da| ≤ 1`, `|f| ≤ 1/2` and `|dt| ≤ 1`. -/
theorem newA_error (p : Params F32) (da f t : ℚ) (hDa : p.Da = F32.fin da) (hda : |da| ≤ 1)
    (hf : p.f = F32.fin f) (hfb : |f| ≤ 1 / 2) (hdt : p.dt = F32.fin t) (ht : |t| ≤ 1)
    (a b L LA : ℚ) (ha : 0 ≤ a ∧ a ≤ 1) (hb : 0 ≤ b ∧ b ≤ 1)
    (hL : |L - LA| ≤ 1 / 2 ^ 19) (hLA : |LA| ≤ 1) :
    ∃ A, newA binary32 p (F32.fin a) (F32.fin b) (F32.fin L) = F32.fin A ∧
      |A - clamp (a + (da * LA - a * b * b + f * (1 - a) * t)) 0 1| ≤ 1 / 2 ^ 17 := by
  have z0 : ∀ x : ℚ, |x - x| ≤ 0 := fun x => by simp
  have haa := abs_unit a ha
  have hba := abs_unit b hb
  have h1 : |(1 : ℚ)| ≤ 1 := by simp
  obtain ⟨m1, e1, b1, c1⟩ := mul_near da L da LA 0 (1 / 2 ^ 19) 1 1 (z0 _) hda hL hLA
    (by norm_num)
  obtain ⟨m2, e2, b2, c2⟩ := mul_near a b a b 0 0 1 1 (z0 _) haa (z0 _) hba (by norm_num)
  obtain ⟨m3, e3, b3, c3⟩ := mul_near m2 b (a * b) b _ 0 _ 1 b2 c2 (z0 _) hba (by norm_num)
  obtain ⟨s1, e4, b4, c4⟩ := sub_near m1 m3 _ _ _ _ _ _ b1 c1 b3 c3 (by norm_num)
  obtain ⟨d, e5, b5, c5⟩ := sub_near 1 a 1 a 0 0 1 1 (z0 _) h1 (z0 _) haa (by norm_num)
  obtain ⟨m4, e6, b6, c6⟩ := mul_near f d f (1 - a) 0 _ (1 / 2) _ (z0 _) hfb b5 c5
    (by norm_num)
  obtain ⟨m5, e7, b7, c7⟩ := mul_near m4 t _ t _ 0 _ 1 b6 c6 (z0 _) ht (by norm_num)
  obtain ⟨s2, e8, b8, c8⟩ := add_near s1 m5 _ _ _ _ _ _ b4 c4 b7 c7 (by norm_num)
  obtain ⟨s3, e9, b9, c9⟩ := add_near a s2 a _ 0 _ 1 _ (z0 _) haa b8 c8 (by norm_num)
  refine ⟨clamp s3 0 1, ?_, ?_⟩
  · unfold newA
    simp only [binary32, hDa, hf, hdt, rn_one, e1, e2, e3, e4, e5, e6, e7, e8, e9]
    rw [← constrain_fin_eq]
    simp only [binary32]
  · refine le_trans (clamp_lipschitz _ _) (le_trans b9 ?_)
    norm_num

/-- The binary32 value of the new B is within `2^-17` of the exact formula, for a cell in
`[0, 1]`, a Laplacian within `2^-19` of an exact one of magnitude at most `1`, and parameters
with `|Db| ≤ 1`, `|f| ≤ 1/2`, `|k| ≤ 1/2` and `|dt| ≤ 1`. -/
theorem newB_error (p : Params F32) (db f k t : ℚ) (hDb : p.Db = F32.fin db) (hdb : |db| ≤ 1)
    (hf : p.f = F32.fin f) (hfb : |f| ≤ 1 / 2) (hk : p.k = F32.fin k) (hkb : |k| ≤ 1 / 2)
    (hdt : p.dt = F32.fin t) (ht : |t| ≤ 1)
    (a b L LB : ℚ) (ha : 0 ≤ a ∧ a ≤ 1) (hb : 0 ≤ b ∧ b ≤ 1)
    (hL : |L - LB| ≤ 1 / 2 ^ 19) (hLB : |LB| ≤ 1) :
    ∃ B, newB binary32 p (F32.fin a) (F32.fin b) (F32.fin L) = F32.fin B ∧
      |B - clamp (b + (db * LB + a * b * b - b * (k + f) * t)) 0 1| ≤ 1 / 2 ^ 17 := by
  have z0 : ∀ x : ℚ, |x - x| ≤ 0 := fun x => by simp
  have haa := abs_unit a ha
  have hba := abs_unit b hb
  obtain ⟨m1, e1, b1, c1⟩ := mul_near db L db LB 0 (1 / 2 ^ 19) 1 1 (z0 _) hdb hL hLB
    (by norm_num)
  obtain ⟨m2, e2, b2, c2⟩ := mul_near a b a b 0 0 1 1 (z0 _) haa (z0 _) hba (by norm_num)
  obtain ⟨m3, e3, b3, c3⟩ := mul_near m2 b (a * b) b _ 0 _ 1 b2 c2 (z0 _) hba (by norm_num)
  obtain ⟨s1, e4, b4, c4⟩ := add_near m1 m3 _ _ _ _ _ _ b1 c1 b3 c3 (by norm_num)
  obtain ⟨d, e5, b5, c5⟩ := add_near k f k f 0 0 (1 / 2) (1 / 2) (z0 _) hkb (z0 _) hfb
    (by norm_num)
  obtain ⟨m4, e6, b6, c6⟩ := mul_near b d b (k + f) 0 _ 1 _ (z0 _) hba b5 c5 (by norm_num)
  obtain ⟨m5, e7, b7, c7⟩ := mul_near m4 t _ t _ 0 _ 1 b6 c6 (z0 _) ht (by norm_num)
  obtain ⟨s2, e8, b8, c8⟩ := sub_near s1 m5 _ _ _ _ _ _ b4 c4 b7 c7 (by norm_num)
  obtain ⟨s3, e9, b9, c9⟩ := add_near b s2 b _ 0 _ 1 _ (z0 _) hba b8 c8 (by norm_num)
  refine ⟨clamp s3 0 1, ?_, ?_⟩
  · unfold newB
    simp only [binary32, hDb, hf, hk, hdt, e1, e2, e3, e4, e5, e6, e7, e8, e9]
    rw [← constrain_fin_eq]
    simp only [binary32]
  · refine le_trans (clamp_lipschitz _ _) (le_trans b9 ?_)
    norm_num

theorem absLe_mono (B C : ℚ) (h : B ≤ C) (v : F32) (hv : F32.absLe B v) : F32.absLe C v := by
  obtain ⟨z, rfl, hz⟩ := absLe_elim B v hv
  exact le_trans hz h

theorem boundedParams_of_unit (p : Params F32) (hp : unitParams p) : boundedParams p := by
  obtain ⟨h1, h2, h3, h4, h5⟩ := hp
  exact ⟨absLe_mono 1 _ (by norm_num) _ h1, absLe_mono 1 _ (by norm_num) _ h2,
    absLe_mono (1 / 2) _ (by norm_num) _ h3, absLe_mono (1 / 2) _ (by norm_num) _ h4,
    absLe_mono 1 _ (by norm_num) _ h5⟩

/-- Every position of a buffer of numbers in `[0, 1]` reads as a cell of numbers in `[0, 1]`,
a position outside the buffer reading as `(0, 0)`. -/
theorem cellAt_inUnit (N : Int) (s : Field F32)
    (hall : ∀ cell ∈ s, F32.inUnit cell.1 ∧ F32.inUnit cell.2) (r c : Int) :
    F32.inUnit (cellAt binary32 N s r c).1 ∧ F32.inUnit (cellAt binary32 N s r c).2 := by
  have h0 : F32.inUnit (rn 0) := by rw [rn_zero]; exact ⟨le_refl _, by norm_num⟩
  unfold cellAt
  cases h : readCell s (r * N + c) with
  | none => exact ⟨h0, h0⟩
  | some cell =>
    unfold readCell at h
    by_cases hidx : 0 ≤ r * N + c
    · rw [if_pos hidx] at h
      exact hall _ (List.getElem?_mem h)
    · rw [if_neg hidx] at h
      exact absurd h (by simp)

theorem mixedField_inUnit (N : Int) (P Q : Field F32)
    (hP : ∀ cell ∈ P, F32.inUnit cell.1 ∧ F32.inUnit cell.2)
    (hQ : ∀ cell ∈ Q, F32.inUnit cell.1 ∧ F32.inUnit cell.2) (i j r c : Int) :
    F32.inUnit (mixedField binary32 N P Q i j r c).1 ∧
      F32.inUnit (mixedField binary32 N P Q i j r c).2 := by
  unfold mixedField
  split
  · exact cellAt_inUnit N Q hQ r c
  · exact cellAt_inUnit N P hP r c

/-- The binary32 accumulation over a field of numbers in `[0, 1]` is within `2^-19` of the exact
9-point Laplacian of the same numbers, which has magnitude at most `1`. -/
theorem stencil_error (g : Int → Int → F32) (hg : ∀ r c, F32.inUnit (g r c)) (y x : Int) :
    ∃ z, stencil binary32 g y x = F32.fin z ∧
      |z - laplacian9 (fun r c => (g r c).toRat) y x| ≤ 1 / 2 ^ 19 ∧
      |laplacian9 (fun r c => (g r c).toRat) y x| ≤ 1 := by
  obtain ⟨q00, e00, h00⟩ := inUnit_elim _ (hg y x)
  obtain ⟨q0m, e0m, h0m⟩ := inUnit_elim _ (hg y (x - 1))
  obtain ⟨q0p, e0p, h0p⟩ := inUnit_elim _ (hg y (x + 1))
  obtain ⟨qm0, em0, hm0⟩ := inUnit_elim _ (hg (y - 1) x)
  obtain ⟨qp0, ep0, hp0⟩ := inUnit_elim _ (hg (y + 1) x)
  obtain ⟨qmm, emm, hmm⟩ := inUnit_elim _ (hg (y - 1) (x - 1))
  obtain ⟨qpm, epm, hpm⟩ := inUnit_elim _ (hg (y + 1) (x - 1))
  obtain ⟨qmp, emp, hmp⟩ := inUnit_elim _ (hg (y - 1) (x + 1))
  obtain ⟨qpp, epp, hpp⟩ := inUnit_elim _ (hg (y + 1) (x + 1))
  obtain ⟨z, hz, herr⟩ := laplaceTotal_error q00 q0m q0p qm0 qp0 qmm qpm qmp qpp
    h00 h0m h0p hm0 hp0 hmm hpm hmp hpp
  refine ⟨z, ?_, ?_, ?_⟩
  · unfold stencil
    rw [e00, e0m, e0p, em0, ep0, emm, epm, emp, epp]
    exact hz
  · unfold laplacian9
    simp only [e00, e0m, e0p, em0, ep0, emm, epm, emp, epp, F32.toRat]
    exact herr
  · unfold laplacian9
    simp only [e00, e0m, e0p, em0, ep0, emm, epm, emp, epp, F32.toRat]
    rw [abs_le]
    constructor <;>
      linarith [h00.1, h00.2, h0m.1, h0m.2, h0p.1, h0p.2, hm0.1, hm0.2, hp0.1, hp0.2,
        hmm.1, hmm.2, hpm.1, hpm.2, hmp.1, hmp.2, hpp.1, hpp.2]

/-- The pair the binary32 sweep leaves in a cell is within `2^-17` of the update formulas
evaluated in exact arithmetic, for buffers of numbers in `[0, 1]` and parameters of magnitude
at most `1` (`1/2` for `f` and `k`). -/
theorem sweepCell_error (p : Params F32) (hp : unitParams p) (N : Int) (P Q : Field F32)
    (hP : ∀ cell ∈ P, F32.inUnit cell.1 ∧ F32.inUnit cell.2)
    (hQ : ∀ cell ∈ Q, F32.inUnit cell.1 ∧ F32.inUnit cell.2) (i j : Int) :
    ∃ A B, sweepCell binary32 p N P Q i j = (F32.fin A, F32.fin B) ∧
      |A - (formulaCell p N P Q i j).1| ≤ 1 / 2 ^ 17 ∧
      |B - (formulaCell p N P Q i j).2| ≤ 1 / 2 ^ 17 := by
  obtain ⟨hDa, hDb, hf, hk, hdt⟩ := hp
  obtain ⟨da, eda, hda⟩ := absLe_elim 1 _ hDa
  obtain ⟨db, edb, hdb⟩ := absLe_elim 1 _ hDb
  obtain ⟨f, ef, hfb⟩ := absLe_elim (1 / 2) _ hf
  obtain ⟨k, ek, hkb⟩ := absLe_elim (1 / 2) _ hk
  obtain ⟨t, et, ht⟩ := absLe_elim 1 _ hdt
  obtain ⟨a, ea, ha⟩ := inUnit_elim _ (cellAt_inUnit N P hP i j).1
  obtain ⟨b, eb, hb⟩ := inUnit_elim _ (cellAt_inUnit N P hP i j).2
  obtain ⟨LA, eLA, bLA, cLA⟩ := stencil_error
    (fun r c => (mixedField binary32 N P Q i j r c).1)
    (fun r c => (mixedField_inUnit N P Q hP hQ i j r c).1) i j
  obtain ⟨LB, eLB, bLB, cLB⟩ := stencil_error
    (fun r c => (mixedField binary32 N P Q i j r c).2)
    (fun r c => (mixedField_inUnit N P Q hP hQ i j r c).2) i j
  obtain ⟨A, eA, bA⟩ := newA_error p da f t eda hda ef hfb et ht a b LA _ ha hb bLA cLA
  obtain ⟨B, eB, bB⟩ := newB_error p db f k t edb hdb ef hfb ek hkb et ht a b LB _ ha hb bLB cLB
  refine ⟨A, B, ?_, ?_, ?_⟩
  · unfold sweepCell
    rw [ea, eb, eLA, eLB, eA, eB]
  · unfold formulaCell grayScott toExactParams
    simp only [ea, eb, eda, ef, et, F32.toRat]
    exact bA
  · unfold formulaCell grayScott toExactParams
    simp only [ea, eb, edb, ef, ek, et, F32.toRat]
    exact bB


/-! ## Claims -/

/-- C2 (border invariance): on every square `n × n` grid, for every buffer of `n * n` cells and
every value of `Da`, `Db`, `f`, `k`, `dt`, one simulation step succeeds and leaves each cell with
`row = 0`, `row = n - 1`, `col = 0` or `col = n - 1` exactly as it was (both `a` and `b`).  This
holds for every interpretation of the `float` operations, binary32 and exact alike. -/
theorem step_border_unchanged {α : Type} (ar : FloatOps α) (p : Params α) (n : Nat)
    (field : Field α) (hlen : field.length = n * n) (row col : Int)
    (hr0 : 0 ≤ row) (hr : row < n) (hc0 : 0 ≤ col) (hc : col < n)
    (hborder : row = 0 ∨ row = (n : Int) - 1 ∨ col = 0 ∨ col = (n : Int) - 1) :
    ∃ Q, step ar p n n field = some Q ∧ Q.length = field.length ∧
      readCell Q (row * (n : Int) + col) = readCell field (row * (n : Int) + col) := by
  obtain ⟨Q, hQ, hQlen, hold, _⟩ := step_sweep ar p n field hlen
  refine ⟨Q, hQ, by rw [hQlen, hlen], ?_⟩
  rw [readCell_grid ar n Q hQlen row col hr0 hr hc0 hc,
    readCell_grid ar n field hlen row col hr0 hr hc0 hc,
    hold row col hr0 hr hc0 hc (by omega)]

/-- C10, as amended (in-place row-major sweep): on every square `n × n` grid, for every
pre-step buffer `P` of `n * n` cells and every parameter values, the step succeeds with a
post-step buffer `Q` in which every interior cell `(i, j)` holds the pair `(A, B)` that the loop
body computes, in the arithmetic of the program, as
`A = a + ((Da * LA) - (a * b * b) + (f * (1 - a)) * dt)` and
`B = b + ((Db * LB) + (a * b * b) - (b * (k + f)) * dt)`, each limited by the two comparisons
with `1` and `0`, where `(a, b) = P(i, j)` and `LA`, `LB` are the accumulations of `laplaceA`
and `laplaceB` over the mixed field that takes `(i-1, j-1)`, `(i-1, j)`, `(i-1, j+1)` and
`(i, j-1)` from `Q` and every other position from `P`.  In binary32, when every value of `P` is
a number in `[0, 1]` and the parameters are finite with `|Da|`, `|Db|`, `|dt|` at most `1` and
`|f|`, `|k|` at most `1/2`, the stored `A` and `B` are numbers, each within `2^-17` of
`clamp (a + (Da·LA − a·b·b + f·(1−a)·dt)) 0 1` and `clamp (b + (Db·LB + a·b·b − b·(k+f)·dt)) 0 1`
evaluated exactly on the stored numbers with the 9-point Laplacians of weights `-1`, `1/5`,
`1/20` over the same mixed field.  In exact arithmetic the stored pair is equal to these two
expressions. -/
theorem step_in_place_sweep (n : Nat) (i j : Int)
    (hi1 : 1 ≤ i) (hi : i ≤ (n : Int) - 2) (hj1 : 1 ≤ j) (hj : j ≤ (n : Int) - 2) :
    (∀ (α : Type) (ar : FloatOps α) (p : Params α) (P : Field α), P.length = n * n →
      ∃ Q, step ar p n n P = some Q ∧ Q.length = n * n ∧
        cellAt ar n Q i j =
          (newA ar p (cellAt ar n P i j).1 (cellAt ar n P i j).2
              (stencil ar (fun r c => (mixedField ar n P Q i j r c).1) i j),
           newB ar p (cellAt ar n P i j).1 (cellAt ar n P i j).2
              (stencil ar (fun r c => (mixedField ar n P Q i j r c).2) i j))) ∧
    (∀ (p : Params F32) (P : Field F32), P.length = n * n →
      (∀ cell ∈ P, F32.inUnit cell.1 ∧ F32.inUnit cell.2) → unitParams p →
      ∃ Q A B, step binary32 p n n P = some Q ∧ Q.length = n * n ∧
        cellAt binary32 n Q i j = (F32.fin A, F32.fin B) ∧
        |A - (formulaCell p n P Q i j).1| ≤ 1 / 2 ^ 17 ∧
        |B - (formulaCell p n P Q i j).2| ≤ 1 / 2 ^ 17) ∧
    (∀ (p : Params ℚ) (P : Field ℚ), P.length = n * n →
      ∃ Q, step exact p n n P = some Q ∧ Q.length = n * n ∧
        cellAt exact n Q i j =
          grayScott p (cellAt exact n P i j).1 (cellAt exact n P i j).2
            (laplacian9 (fun r c => (mixedField exact n P Q i j r c).1) i j)
            (laplacian9 (fun r c => (mixedField exact n P Q i j r c).2) i j)) := by
  refine ⟨?_, ?_, ?_⟩
  · intro α ar p P hlen
    obtain ⟨Q, hQ, hQlen, _, hnew⟩ := step_sweep ar p n P hlen
    exact ⟨Q, hQ, hQlen, hnew i j hi1 (by omega) hj1 (by omega)⟩
  · intro p P hlen hall hp
    obtain ⟨Q, hQ, hQlen, _, hnew⟩ := step_sweep binary32 p n P hlen
    obtain ⟨Q', hQ', _, hallQ'⟩ := step_inUnit p (boundedParams_of_unit p hp) n P hlen hall
    have hQQ : Q' = Q := Option.some.inj (hQ'.symm.trans hQ)
    rw [hQQ] at hallQ'
    obtain ⟨A, B, hAB, hA, hB⟩ := sweepCell_error p hp n P Q hall hallQ' i j
    exact ⟨Q, A, B, hQ, hQlen, (hnew i j hi1 (by omega) hj1 (by omega)).trans hAB, hA, hB⟩
  · intro p P hlen
    obtain ⟨Q, hQ, hQlen, _, hnew⟩ := step_sweep exact p n P hlen
    refine ⟨Q, hQ, hQlen, ?_⟩
    rw [hnew i j hi1 (by omega) hj1 (by omega), sweepCell, stencil_exact, stencil_exact,
      newAB_exact]

/-- C10 as stated, refuted on the binary32 program: on the 4 × 4 buffer `splatted4` with the
initial parameter values the step stores `(1 - 2^-24, 11676943 / 2^28)` in the cell `(1, 2)`,
while the formula of the claim, evaluated exactly on the stored numbers with the same mixed
field, gives `(1, 7298089 / 167772160)`. -/
theorem sweep_formula_not_exact :
    step binary32 (defaultParams binary32) 4 4 (splatted4 binary32) = some splatted4Stepped ∧
    cellAt binary32 4 splatted4Stepped 1 2
      = (F32.fin (16777215 / 16777216), F32.fin (11676943 / 268435456)) ∧
    formulaCell (defaultParams binary32) 4 (splatted4 binary32) splatted4Stepped 1 2
      = (1, 7298089 / 167772160) ∧
    ((16777215 / 16777216 : ℚ), (11676943 / 268435456 : ℚ)) ≠ (1, 7298089 / 167772160) := by
  decide!

/-- C9 (degenerate grid): when the width or the height is less than 3, the loop nest of the
step runs its body for no cell at all, whatever the body is (so no Laplacian is evaluated and
the buffer is never accessed), and the step returns the buffer unchanged; this holds for every
buffer, of any length, every parameter values and every interpretation of the `float`
operations. -/
theorem step_degenerate_grid {α : Type} (ar : FloatOps α) (p : Params α)
    (gridSizeX gridSizeY : Int) (field : Field α)
    (hsmall : gridSizeX < 3 ∨ gridSizeY < 3) :
    step ar p gridSizeX gridSizeY field = some field ∧
      ∀ body : Int → Int → Field α → Option (Field α),
        stepWith body gridSizeX gridSizeY field = some field := by
  have key : ∀ body : Int → Int → Field α → Option (Field α),
      stepWith body gridSizeX gridSizeY field = some field := by
    intro body
    unfold stepWith
    by_cases hy : gridSizeY < 3
    · exact forRange_empty _ _ _ (by omega) field
    · have hx : gridSizeX < 3 := by omega
      obtain ⟨s, hs, rfl⟩ := forRange_preserves
        (fun i c => forRange 1 (gridSizeX - 1) (fun j c => body i j c) c)
        (fun s => s = field) 1 (gridSizeY - 1)
        (fun i s _ _ hs => ⟨s, forRange_empty _ _ _ (by omega) s, hs⟩) field rfl
      exact hs
  exact ⟨key _, key⟩

/-- C4, as amended (splat containment with clipping): on every square `n × n` grid, for every
buffer of `n * n` cells and all `int` arguments `x` (centre column), `y` (centre row) and `size`
for which `x - size`, `x + size`, `y - size` and `y + size` do not overflow a 32-bit `int`
(centres outside the grid and `size ≤ 0` included), `splat` makes no access outside the buffer
(it succeeds and keeps the length), sets to `(0, 1)` exactly the grid cells with
`row > y - size`, `col > x - size`, `row < y + size` and `col < x + size`, and leaves every
other grid cell unchanged. -/
theorem splat_footprint {α : Type} (ar : FloatOps α) (n : Nat) (field : Field α)
    (hlen : field.length = n * n) (x y size : Int)
    (hxm : inInt32 (x - size)) (hxp : inInt32 (x + size))
    (hym : inInt32 (y - size)) (hyp : inInt32 (y + size)) :
    ∃ Q, splat ar n n field x y size = some Q ∧ Q.length = field.length ∧
      ∀ row col : Int, 0 ≤ row → row < n → 0 ≤ col → col < n →
        readCell Q (row * (n : Int) + col)
          = if row > y - size ∧ col > x - size ∧ row < y + size ∧ col < x + size
            then some (ar.lit 0, ar.lit 1) else readCell field (row * (n : Int) + col) := by
  obtain ⟨Q, hQ, hQlen, hcells⟩ := splat_square ar n field hlen x y size
  refine ⟨Q, hQ, by rw [hQlen, hlen], ?_⟩
  intro row col hr0 hr hc0 hc
  rw [readCell_grid ar n Q hQlen row col hr0 hr hc0 hc,
    readCell_grid ar n field hlen row col hr0 hr hc0 hc, hcells row col hr0 hr hc0 hc,
    wrap32_eq _ hxm.1 hxm.2, wrap32_eq _ hxp.1 hxp.2, wrap32_eq _ hym.1 hym.2,
    wrap32_eq _ hyp.1 hyp.2]
  by_cases h : row > y - size ∧ col > x - size ∧ row < y + size ∧ col < x + size
  · rw [if_pos h, if_pos ⟨⟨h.1, h.2.1⟩, h.2.2.1, h.2.2.2⟩]
  · rw [if_neg h, if_neg (fun h' => h ⟨h'.1.1, h'.1.2, h'.2.1, h'.2.2⟩)]

/-- C4 as stated, refuted: on the 4 × 4 reset buffer, `splat` with `x = 2`, `y = 2` and
`size = 2147483647` computes `y + size` and `x + size` past the largest `int`; the wrapped
values are negative, no cell passes the test and the buffer is returned unchanged, although
every grid cell, `(0, 0)` for one, satisfies the four inequalities of the claim. -/
theorem splat_size_overflow :
    splat binary32 4 4 (uniform binary32 16) 2 2 2147483647 = some (uniform binary32 16) ∧
    ((0 : Int) > 2 - 2147483647 ∧ (0 : Int) > 2 - 2147483647
      ∧ (0 : Int) < 2 + 2147483647 ∧ (0 : Int) < 2 + 2147483647) ∧
    readCell (uniform binary32 16) (0 * 4 + 0) = some (F32.fin 1, F32.fin 0) ∧
    (F32.fin 1, F32.fin 0) ≠ (binary32.lit 0, binary32.lit 1) := by
  decide!

/-- C6 (reset postcondition and idempotence): on every square `n × n` grid and for every prior
buffer of `n * n` cells, `resetConcentration` succeeds and leaves every cell equal to `(1, 0)`;
applying it again to the result yields the same buffer.  This holds for every interpretation of
the `float` operations; `1.0f` and `0.0f` are the numbers 1 and 0 in binary32. -/
theorem resetConcentration_postcondition {α : Type} (ar : FloatOps α) (n : Nat)
    (field : Field α) (hlen : field.length = n * n) :
    ∃ Q, resetConcentration ar n n field = some Q ∧
      Q = List.replicate (n * n) (ar.lit 1, ar.lit 0) ∧
      (resetConcentration ar n n field).bind (resetConcentration ar n n)
        = resetConcentration ar n n field := by
  obtain ⟨Q, hQ, hQlen, hcells⟩ := reset_square ar n field hlen
  obtain ⟨Q', hQ', hQlen', hcells'⟩ := reset_square ar n Q hQlen
  have e1 := eq_replicate_of_cells ar n Q _ hQlen hcells
  have e2 := eq_replicate_of_cells ar n Q' _ hQlen' hcells'
  refine ⟨Q, hQ, e1, ?_⟩
  rw [hQ, Option.some_bind, hQ', e1, e2]

/-- C1, as amended (clamping invariant of the binary32 program): on every square `n × n` grid,
starting from the buffer produced by `resetConcentration` (from any prior buffer of `n * n`
cells), after any finite sequence of simulation steps, each with arbitrary `float` values of
`Da`, `Db`, `f`, `k`, `dt` (infinities and NaN included), and of `splat` calls with arbitrary
`int` arguments, every access made was inside the buffer and each of the two values of every
cell is either a number in `[0, 1]` or NaN; and when the parameter values of every step are
finite and of magnitude at most `2^30`, as those of the program always are, no NaN arises and
both values of every cell are numbers in `[0, 1]`. -/
theorem clamping_invariant (n : Nat) (field : Field F32) (hlen : field.length = n * n)
    (events : List (Event F32)) :
    ∃ c0 Q, resetConcentration binary32 n n field = some c0 ∧
      runEvents binary32 n n events c0 = some Q ∧
      (∀ cell ∈ Q, F32.inUnitOrNaN cell.1 ∧ F32.inUnitOrNaN cell.2) ∧
      ((∀ e ∈ events, boundedEvent e) → ∀ cell ∈ Q, F32.inUnit cell.1 ∧ F32.inUnit cell.2) := by
  obtain ⟨c0, h0, hlen0, hcells⟩ := reset_square binary32 n field hlen
  have hall0 : ∀ b ∈ c0, F32.inUnitOrNaN b.1 ∧ F32.inUnitOrNaN b.2 :=
    forall_mem_of_cells binary32 n c0 _ hlen0 (fun r c hr0 hr hc0 hc => by
      rw [hcells r c hr0 hr hc0 hc]
      simp [binary32, rn_one, rn_zero, F32.inUnitOrNaN])
  have hunit0 : ∀ b ∈ c0, F32.inUnit b.1 ∧ F32.inUnit b.2 :=
    forall_mem_of_cells binary32 n c0 _ hlen0 (fun r c hr0 hr hc0 hc => by
      rw [hcells r c hr0 hr hc0 hc]
      simp [binary32, rn_one, rn_zero, F32.inUnit])
  obtain ⟨Q, hQ, _, hall⟩ := runEvents_inUnitOrNaN n events c0 hlen0 hall0
  exact ⟨c0, Q, h0, hQ, hall, fun hev => runEvents_inUnit n events hev c0 hlen0 hunit0 Q hQ⟩

/-- C1 as stated, refuted on the binary32 program: on the 3 × 3 grid, after the reset, one step
with the finite parameter values `f = k = 2^127` (`Da = 1`, `Db = 1/2`, `dt = 1`) computes
`k + f = +∞` and `b * (k + f) = 0 * ∞ = NaN`; both comparisons of the clamp are false for NaN,
so NaN is stored as the `b` value of the cell `(1, 1)`. -/
theorem clamping_fails_on_overflow :
    resetConcentration binary32 3 3 (List.replicate 9 (F32.fin 0, F32.fin 0))
      = some (uniform binary32 9) ∧
    runEvents binary32 3 3
        [Event.step ⟨F32.fin 1, F32.fin (1 / 2), F32.fin (2 ^ 127), F32.fin (2 ^ 127), F32.fin 1⟩]
        (uniform binary32 9)
      = some [(F32.fin 1, F32.fin 0), (F32.fin 1, F32.fin 0), (F32.fin 1, F32.fin 0),
              (F32.fin 1, F32.fin 0), (F32.fin (16777215 / 16777216), F32.nan),
              (F32.fin 1, F32.fin 0),
              (F32.fin 1, F32.fin 0), (F32.fin 1, F32.fin 0), (F32.fin 1, F32.fin 0)] ∧
    rn (2 ^ 127) = F32.fin (2 ^ 127) ∧
    ¬ F32.inUnit F32.nan :=
  ⟨by decide!, by decide!, by decide!, fun h => h⟩

/-- C5, as amended (Laplacian kernel): on every square `n × n` grid, for every buffer of `n * n`
cells and every interior cell `(y, x)` with `1 ≤ y, x ≤ n - 2`, all nine reads of `laplaceA` and
`laplaceB` are in range and the result is the accumulation, in the arithmetic of the program
and in this order, of `0`, `c * (-1)`, `left * 0.2`, `right * 0.2`, `up * 0.2`, `down * 0.2`,
`upleft * 0.05`, `downleft * 0.05`, `upright * 0.05`, `downright * 0.05` over the `a` channel
(`laplaceA`) or the `b` channel (`laplaceB`).  In binary32, when both values of every cell are
numbers in `[0, 1]`, the two results are finite and differ by at most `2^-19` from
`-1·c + (1/5)·(up + down + left + right) + (1/20)·(sum of the four diagonal neighbours)`; in
exact arithmetic, with the weights `1/5` and `1/20`, they are equal to it. -/
theorem laplace_kernel (n : Nat) (y x : Int)
    (hy1 : 1 ≤ y) (hy : y ≤ (n : Int) - 2) (hx1 : 1 ≤ x) (hx : x ≤ (n : Int) - 2) :
    (∀ (α : Type) (ar : FloatOps α) (field : Field α), field.length = n * n →
      laplaceA ar n y x field
        = some (ar.add (ar.add (ar.add (ar.add (ar.add (ar.add (ar.add (ar.add (ar.add
            (ar.lit 0)
            (ar.mul (cellAt ar n field y x).1 (ar.lit (-1))))
            (ar.mul (cellAt ar n field y (x - 1)).1 (ar.lit (1 / 5))))
            (ar.mul (cellAt ar n field y (x + 1)).1 (ar.lit (1 / 5))))
            (ar.mul (cellAt ar n field (y - 1) x).1 (ar.lit (1 / 5))))
            (ar.mul (cellAt ar n field (y + 1) x).1 (ar.lit (1 / 5))))
            (ar.mul (cellAt ar n field (y - 1) (x - 1)).1 (ar.lit (1 / 20))))
            (ar.mul (cellAt ar n field (y + 1) (x - 1)).1 (ar.lit (1 / 20))))
            (ar.mul (cellAt ar n field (y - 1) (x + 1)).1 (ar.lit (1 / 20))))
            (ar.mul (cellAt ar n field (y + 1) (x + 1)).1 (ar.lit (1 / 20)))) ∧
      laplaceB ar n y x field
        = some (ar.add (ar.add (ar.add (ar.add (ar.add (ar.add (ar.add (ar.add (ar.add
            (ar.lit 0)
            (ar.mul (cellAt ar n field y x).2 (ar.lit (-1))))
            (ar.mul (cellAt ar n field y (x - 1)).2 (ar.lit (1 / 5))))
            (ar.mul (cellAt ar n field y (x + 1)).2 (ar.lit (1 / 5))))
            (ar.mul (cellAt ar n field (y - 1) x).2 (ar.lit (1 / 5))))
            (ar.mul (cellAt ar n field (y + 1) x).2 (ar.lit (1 / 5))))
            (ar.mul (cellAt ar n field (y - 1) (x - 1)).2 (ar.lit (1 / 20))))
            (ar.mul (cellAt ar n field (y + 1) (x - 1)).2 (ar.lit (1 / 20))))
            (ar.mul (cellAt ar n field (y - 1) (x + 1)).2 (ar.lit (1 / 20))))
            (ar.mul (cellAt ar n field (y + 1) (x + 1)).2 (ar.lit (1 / 20))))) ∧
    (∀ field : Field F32, field.length = n * n →
      (∀ cell ∈ field, F32.inUnit cell.1 ∧ F32.inUnit cell.2) →
      ∃ za zb : ℚ, laplaceA binary32 n y x field = some (F32.fin za) ∧
        laplaceB binary32 n y x field = some (F32.fin zb) ∧
        |za - laplacian9 (fun r c => (cellAt binary32 n field r c).1.toRat) y x| ≤ 1 / 2 ^ 19 ∧
        |zb - laplacian9 (fun r c => (cellAt binary32 n field r c).2.toRat) y x|
          ≤ 1 / 2 ^ 19) ∧
    (∀ field : Field ℚ, field.length = n * n →
      laplaceA exact n y x field
        = some (-1 * (cellAt exact n field y x).1
            + (1 / 5) * ((cellAt exact n field (y - 1) x).1 + (cellAt exact n field (y + 1) x).1
                + (cellAt exact n field y (x - 1)).1 + (cellAt exact n field y (x + 1)).1)
            + (1 / 20) * ((cellAt exact n field (y - 1) (x - 1)).1
                + (cellAt exact n field (y - 1) (x + 1)).1
                + (cellAt exact n field (y + 1) (x - 1)).1
                + (cellAt exact n field (y + 1) (x + 1)).1)) ∧
      laplaceB exact n y x field
        = some (-1 * (cellAt exact n field y x).2
            + (1 / 5) * ((cellAt exact n field (y - 1) x).2 + (cellAt exact n field (y + 1) x).2
                + (cellAt exact n field y (x - 1)).2 + (cellAt exact n field y (x + 1)).2)
            + (1 / 20) * ((cellAt exact n field (y - 1) (x - 1)).2
                + (cellAt exact n field (y - 1) (x + 1)).2
                + (cellAt exact n field (y + 1) (x - 1)).2
                + (cellAt exact n field (y + 1) (x + 1)).2))) := by
  refine ⟨?_, ?_, ?_⟩
  · intro α ar field hlen
    rw [laplaceA_grid ar n field hlen y x hy1 (by omega) hx1 (by omega),
      laplaceB_grid ar n field hlen y x hy1 (by omega) hx1 (by omega)]
    exact ⟨rfl, rfl⟩
  · intro field hlen hall
    obtain ⟨za, hza, hea⟩ := lapA_error n field hlen hall y x hy1 (by omega) hx1 (by omega)
    obtain ⟨zb, hzb, heb⟩ := lapB_error n field hlen hall y x hy1 (by omega) hx1 (by omega)
    rw [laplaceA_grid binary32 n field hlen y x hy1 (by omega) hx1 (by omega),
      laplaceB_grid binary32 n field hlen y x hy1 (by omega) hx1 (by omega), hza, hzb]
    exact ⟨za, zb, rfl, rfl, hea, heb⟩
  · intro field hlen
    rw [laplaceA_grid exact n field hlen y x hy1 (by omega) hx1 (by omega),
      laplaceB_grid exact n field hlen y x hy1 (by omega) hx1 (by omega)]
    unfold lapA lapB
    rw [laplaceTotal_exact, laplaceTotal_exact]
    exact ⟨rfl, rfl⟩

/-- C5 as stated, refuted on the binary32 program: on the 3 × 3 buffer with every cell `(1, 0)`
the kernel of the claim gives `-1 + (1/5)·4 + (1/20)·4 = 0` at the cell `(1, 1)`, while
`laplaceA`, which multiplies by the binary32 weights `0.2f` and `0.05f` and rounds after every
product and sum, returns `-5 / 2^27`. -/
theorem laplace_not_exact_kernel :
    laplaceA binary32 3 1 1 (uniform binary32 9) = some (F32.fin (-5 / 134217728)) ∧
    laplacian9 (fun r c => (cellAt exact 3 (toExactField (uniform binary32 9)) r c).1) 1 1 = 0 ∧
    binary32.lit (1 / 5) = F32.fin (13421773 / 67108864) ∧
    binary32.lit (1 / 20) = F32.fin (13421773 / 268435456) := by
  decide!

/-- C3 (pre-step reads), evaluated on the 4 × 4 grid with the initial parameter values and the
buffer `splatted4` (reset, then `splat` with centre `(1, 1)` and size `1`).  In exact
arithmetic the step of the program stores `(1, 87/200)` in the cell `(1, 1)` and then reads
this new value when it updates `(1, 2)`, `(2, 1)` and `(2, 2)`, so its result differs from the
double-buffered reference step, which computes `(4/5, 1/10)` for the cell `(1, 2)` where the
program computes `(1, 87/2000)`.  In binary32 the same happens: the step stores
`(1 - 2^-24, 11676943 / 2^28)` (about `(0.99999994, 0.0435)`) in the cell `(1, 2)`, where the
loop body applied to the pre-step buffer gives `(13421773 / 2^24, 13421773 / 2^27)` (about
`(0.8, 0.1)`). -/
theorem step_differs_from_reference :
    ((resetConcentration exact 4 4 (List.replicate 16 ((0, 0) : Cell ℚ))).bind
        (fun c => splat exact 4 4 c 1 1 1) = some (splatted4 exact) ∧
    step exact (defaultParams exact) 4 4 (splatted4 exact)
      = some [(1, 0), (1, 0), (1, 0), (1, 0),
              (1, 0), (1, 87 / 200), (1, 87 / 2000), (1, 0),
              (1, 0), (1, 3567 / 80000), (1, 15747 / 800000), (1, 0),
              (1, 0), (1, 0), (1, 0), (1, 0)] ∧
    referenceStep (defaultParams exact) 4 (splatted4 exact)
      = [(1, 0), (1, 0), (1, 0), (1, 0),
         (1, 0), (1, 87 / 200), (4 / 5, 1 / 10), (1, 0),
         (1, 0), (4 / 5, 1 / 10), (19 / 20, 1 / 40), (1, 0),
         (1, 0), (1, 0), (1, 0), (1, 0)] ∧
    step exact (defaultParams exact) 4 4 (splatted4 exact)
      ≠ some (referenceStep (defaultParams exact) 4 (splatted4 exact))) ∧
    ((resetConcentration binary32 4 4 (List.replicate 16 (F32.fin 0, F32.fin 0))).bind
        (fun c => splat binary32 4 4 c 1 1 1) = some (splatted4 binary32) ∧
    step binary32 (defaultParams binary32) 4 4 (splatted4 binary32) = some splatted4Stepped ∧
    cellAt binary32 4 splatted4Stepped 1 2
      = (F32.fin (16777215 / 16777216), F32.fin (11676943 / 268435456)) ∧
    updatedCell binary32 (defaultParams binary32) 4 (splatted4 binary32) 1 2
      = (F32.fin (13421773 / 16777216), F32.fin (13421773 / 134217728))) := by
  decide!

/-- C8, as amended (grid addressing on the square grid of the program): for every square grid
of width and height `n` (the program has `n = 256`), the index `row * n + col` of a cell with
`0 ≤ row < n` and `0 ≤ col < n` lies in `[0, n * n)`, it addresses a cell of every buffer of
`n * n` pairs, and no other grid cell has the same index. -/
theorem addressing_square (n : Nat) (row col : Int)
    (hr0 : 0 ≤ row) (hr : row < n) (hc0 : 0 ≤ col) (hc : col < n) :
    0 ≤ cellIndex n row col ∧ cellIndex n row col < (n : Int) * n ∧
    (∀ (α : Type) (field : Field α), field.length = n * n →
      ∃ cell, readCell field (cellIndex n row col) = some cell) ∧
    (∀ row' col' : Int, 0 ≤ row' → row' < n → 0 ≤ col' → col' < n →
      cellIndex n row col = cellIndex n row' col' → row = row' ∧ col = col') := by
  unfold cellIndex
  refine ⟨index_nonneg n row col hr0 hc0, index_lt_int n row col hr hc, ?_, ?_⟩
  · intro α field hlen
    have h0 := index_nonneg n row col hr0 hc0
    have h1 : (row * (n : Int) + col).toNat < field.length := by
      rw [hlen]; exact index_lt n row col hr0 hr hc0 hc
    exact ⟨field[(row * (n : Int) + col).toNat], by
      simp [readCell, h0, List.getElem?_eq_getElem h1]⟩
  · intro row' col' _ _ hc0' hc' h
    exact index_inj n row col row' col' hc0 hc hc0' hc' h

/-- C8 as stated, refuted on non-square grids.  With width 3 and height 2 the cells
`(row 0, col 2)` and `(row 1, col 0)` share the index 2, and `resetConcentration` never reaches
the last of the 6 cells of the buffer.  With width 1 and height 2 the cell `(row 1, col 0)` has
index 2, outside the buffer of 2 cells, and `resetConcentration` makes an access out of range. -/
theorem addressing_nonsquare :
    cellIndex 2 0 2 = cellIndex 2 1 0 ∧
    resetConcentration binary32 3 2 (List.replicate 6 (F32.fin 0, F32.fin 0))
      = some [(F32.fin 1, F32.fin 0), (F32.fin 1, F32.fin 0), (F32.fin 1, F32.fin 0),
              (F32.fin 1, F32.fin 0), (F32.fin 1, F32.fin 0), (F32.fin 0, F32.fin 0)] ∧
    cellIndex 2 1 0 = 2 ∧
    resetConcentration binary32 1 2 (List.replicate 2 (F32.fin 0, F32.fin 0)) = none := by
  decide!

/-! ## Instances of the theorems at concrete inputs -/

/-- The initial parameter values are bounded. -/
theorem boundedParams_default : boundedParams (defaultParams binary32) := by
  have h1 : rn 1 = F32.fin 1 := rn_one
  have h2 : rn (1 / 2) = F32.fin (1 / 2) := by decide!
  have h3 : rn (3 / 250) = F32.fin (6442451 / 536870912) := by decide!
  have h4 : rn (53 / 1000) = F32.fin (14227079 / 268435456) := by decide!
  simp only [boundedParams, defaultParams, binary32, h1, h2, h3, h4, F32.absLe]
  refine ⟨?_, ?_, ?_, ?_, ?_⟩ <;> rw [abs_le] <;> constructor <;> norm_num

/-- C1 on the 3 × 3 grid in binary32: reset (from a buffer holding NaN), then two splats (one
centred outside the grid) interleaved with two steps with the initial parameter values; every
value of the result is a number in `[0, 1]`. -/
theorem clamping_invariant_witness :
    ∃ c0 Q, resetConcentration binary32 3 3 (List.replicate 9 (F32.fin 0, F32.nan)) = some c0 ∧
      runEvents binary32 3 3 [Event.splat 1 1 1, Event.step (defaultParams binary32),
        Event.splat 7 (-2) 4, Event.step (defaultParams binary32)] c0 = some Q ∧
      (∀ cell ∈ Q, F32.inUnitOrNaN cell.1 ∧ F32.inUnitOrNaN cell.2) ∧
      (∀ cell ∈ Q, F32.inUnit cell.1 ∧ F32.inUnit cell.2) := by
  obtain ⟨c0, Q, h0, hQ, h1, h2⟩ := clamping_invariant 3
    (List.replicate 9 (F32.fin 0, F32.nan)) (by rfl)
    [Event.splat 1 1 1, Event.step (defaultParams binary32), Event.splat 7 (-2) 4,
      Event.step (defaultParams binary32)]
  refine ⟨c0, Q, h0, hQ, h1, h2 ?_⟩
  intro e he
  simp only [List.mem_cons, List.mem_singleton, List.not_mem_nil, or_false] at he
  rcases he with rfl | rfl | rfl | rfl
  · trivial
  · exact boundedParams_default
  · trivial
  · exact boundedParams_default

/-- C2 on the 4 × 4 buffer `splatted4` in binary32 with the initial parameters, at the border
cell `(row 0, col 2)`. -/
theorem step_border_unchanged_witness :
    ∃ Q, step binary32 (defaultParams binary32) 4 4 (splatted4 binary32) = some Q ∧
      Q.length = (splatted4 binary32).length ∧
      readCell Q (0 * 4 + 2) = readCell (splatted4 binary32) (0 * 4 + 2) :=
  step_border_unchanged binary32 (defaultParams binary32) 4 (splatted4 binary32) (by rfl) 0 2
    (by decide) (by decide) (by decide) (by decide) (by decide)

/-- The initial parameter values have magnitude at most `1` (`1/2` for `f` and `k`). -/
theorem unitParams_default : unitParams (defaultParams binary32) := by
  have h1 : rn 1 = F32.fin 1 := rn_one
  have h2 : rn (1 / 2) = F32.fin (1 / 2) := by decide!
  have h3 : rn (3 / 250) = F32.fin (6442451 / 536870912) := by decide!
  have h4 : rn (53 / 1000) = F32.fin (14227079 / 268435456) := by decide!
  simp only [unitParams, defaultParams, binary32, h1, h2, h3, h4, F32.absLe]
  refine ⟨?_, ?_, ?_, ?_, ?_⟩ <;> rw [abs_le] <;> constructor <;> norm_num

/-- Every value of the buffer `splatted4` is a number in `[0, 1]`. -/
theorem splatted4_inUnit :
    ∀ cell ∈ splatted4 binary32, F32.inUnit cell.1 ∧ F32.inUnit cell.2 := by
  have h : ∀ cell ∈ splatted4 binary32,
      cell = (F32.fin 1, F32.fin 0) ∨ cell = (F32.fin 0, F32.fin 1) := by decide!
  intro cell hc
  rcases h cell hc with rfl | rfl <;> simp [F32.inUnit]

/-- C10 on the 4 × 4 buffer `splatted4` in binary32 with the initial parameters, at the interior
cell `(1, 2)`, whose left neighbour `(1, 1)` is updated earlier in the same sweep: the cell
holds the pair computed by the loop body over the mixed field, and this pair is within `2^-17`
of the exact formulas. -/
theorem step_in_place_sweep_witness :
    (∃ Q, step binary32 (defaultParams binary32) 4 4 (splatted4 binary32) = some Q ∧
      Q.length = 4 * 4 ∧
      cellAt binary32 4 Q 1 2 =
        (newA binary32 (defaultParams binary32) (cellAt binary32 4 (splatted4 binary32) 1 2).1
            (cellAt binary32 4 (splatted4 binary32) 1 2).2
            (stencil binary32
              (fun r c => (mixedField binary32 4 (splatted4 binary32) Q 1 2 r c).1) 1 2),
         newB binary32 (defaultParams binary32) (cellAt binary32 4 (splatted4 binary32) 1 2).1
            (cellAt binary32 4 (splatted4 binary32) 1 2).2
            (stencil binary32
              (fun r c => (mixedField binary32 4 (splatted4 binary32) Q 1 2 r c).2) 1 2))) ∧
    (∃ Q A B, step binary32 (defaultParams binary32) 4 4 (splatted4 binary32) = some Q ∧
      Q.length = 4 * 4 ∧ cellAt binary32 4 Q 1 2 = (F32.fin A, F32.fin B) ∧
      |A - (formulaCell (defaultParams binary32) 4 (splatted4 binary32) Q 1 2).1| ≤ 1 / 2 ^ 17 ∧
      |B - (formulaCell (defaultParams binary32) 4 (splatted4 binary32) Q 1 2).2|
        ≤ 1 / 2 ^ 17) :=
  ⟨(step_in_place_sweep 4 1 2 (by decide) (by decide) (by decide) (by decide)).1 F32 binary32
      (defaultParams binary32) (splatted4 binary32) (by rfl),
   (step_in_place_sweep 4 1 2 (by decide) (by decide) (by decide) (by decide)).2.1
      (defaultParams binary32) (splatted4 binary32) (by rfl) splatted4_inUnit
      unitParams_default⟩

/-- C5 on the 10 × 10 binary32 buffer whose only nonzero cell is `(5, 5)` with value `1`: both
Laplacians are `-1` at `(5, 5)`, the binary32 number `0.2f = 13421773 / 2^26` at each
orthogonal neighbour and `0.05f = 13421773 / 2^28` at each diagonal neighbour. -/
theorem laplace_kernel_witness :
    (laplaceA binary32 10 5 5 (impulse10 binary32) = some (F32.fin (-1))
      ∧ laplaceB binary32 10 5 5 (impulse10 binary32) = some (F32.fin (-1))) ∧
    (laplaceA binary32 10 4 5 (impulse10 binary32) = some (F32.fin (13421773 / 67108864))
      ∧ laplaceB binary32 10 4 5 (impulse10 binary32) = some (F32.fin (13421773 / 67108864))) ∧
    (laplaceA binary32 10 6 5 (impulse10 binary32) = some (F32.fin (13421773 / 67108864))
      ∧ laplaceB binary32 10 6 5 (impulse10 binary32) = some (F32.fin (13421773 / 67108864))) ∧
    (laplaceA binary32 10 5 4 (impulse10 binary32) = some (F32.fin (13421773 / 67108864))
      ∧ laplaceB binary32 10 5 4 (impulse10 binary32) = some (F32.fin (13421773 / 67108864))) ∧
    (laplaceA binary32 10 5 6 (impulse10 binary32) = some (F32.fin (13421773 / 67108864))
      ∧ laplaceB binary32 10 5 6 (impulse10 binary32) = some (F32.fin (13421773 / 67108864))) ∧
    (laplaceA binary32 10 4 4 (impulse10 binary32) = some (F32.fin (13421773 / 268435456))
      ∧ laplaceB binary32 10 4 4 (impulse10 binary32) = some (F32.fin (13421773 / 268435456))) ∧
    (laplaceA binary32 10 4 6 (impulse10 binary32) = some (F32.fin (13421773 / 268435456))
      ∧ laplaceB binary32 10 4 6 (impulse10 binary32) = some (F32.fin (13421773 / 268435456))) ∧
    (laplaceA binary32 10 6 4 (impulse10 binary32) = some (F32.fin (13421773 / 268435456))
      ∧ laplaceB binary32 10 6 4 (impulse10 binary32) = some (F32.fin (13421773 / 268435456))) ∧
    (laplaceA binary32 10 6 6 (impulse10 binary32) = some (F32.fin (13421773 / 268435456))
      ∧ laplaceB binary32 10 6 6 (impulse10 binary32)
        = some (F32.fin (13421773 / 268435456))) := by
  have h := fun (y x : Int) (hy1 : 1 ≤ y) (hy : y ≤ ((10 : Nat) : Int) - 2) (hx1 : 1 ≤ x)
      (hx : x ≤ ((10 : Nat) : Int) - 2) =>
    (laplace_kernel 10 y x hy1 hy hx1 hx).1 F32 binary32 (impulse10 binary32) (by rfl)
  have h55 := h 5 5 (by decide) (by decide) (by decide) (by decide)
  have h45 := h 4 5 (by decide) (by decide) (by decide) (by decide)
  have h65 := h 6 5 (by decide) (by decide) (by decide) (by decide)
  have h54 := h 5 4 (by decide) (by decide) (by decide) (by decide)
  have h56 := h 5 6 (by decide) (by decide) (by decide) (by decide)
  have h44 := h 4 4 (by decide) (by decide) (by decide) (by decide)
  have h46 := h 4 6 (by decide) (by decide) (by decide) (by decide)
  have h64 := h 6 4 (by decide) (by decide) (by decide) (by decide)
  have h66 := h 6 6 (by decide) (by decide) (by decide) (by decide)
  exact ⟨⟨h55.1.trans (by decide!), h55.2.trans (by decide!)⟩,
    ⟨h45.1.trans (by decide!), h45.2.trans (by decide!)⟩,
    ⟨h65.1.trans (by decide!), h65.2.trans (by decide!)⟩,
    ⟨h54.1.trans (by decide!), h54.2.trans (by decide!)⟩,
    ⟨h56.1.trans (by decide!), h56.2.trans (by decide!)⟩,
    ⟨h44.1.trans (by decide!), h44.2.trans (by decide!)⟩,
    ⟨h46.1.trans (by decide!), h46.2.trans (by decide!)⟩,
    ⟨h64.1.trans (by decide!), h64.2.trans (by decide!)⟩,
    ⟨h66.1.trans (by decide!), h66.2.trans (by decide!)⟩⟩

/-- C4, the 10 × 10 instance in binary32: on the buffer with every cell `(1, 0)`, `splat` with
centre `(5, 5)` and size `3` turns exactly the 25 cells with rows 3..7 and columns 3..7 into
`(0, 1)` and leaves `(1, 0)` everywhere else. -/
theorem splat_footprint_witness :
    ∃ Q, splat binary32 10 10 (uniform binary32 100) 5 5 3 = some Q ∧ Q.length = 100 ∧
      (∀ row col : Int, 0 ≤ row → row < 10 → 0 ≤ col → col < 10 →
        readCell Q (row * 10 + col)
          = if 3 ≤ row ∧ row ≤ 7 ∧ 3 ≤ col ∧ col ≤ 7 then some (F32.fin 0, F32.fin 1)
            else some (F32.fin 1, F32.fin 0)) ∧
      Q.count (F32.fin 0, F32.fin 1) = 25 := by
  obtain ⟨Q, hQ, hQlen, hcells⟩ :=
    splat_footprint binary32 10 (uniform binary32 100) (by rfl) 5 5 3
      ⟨by decide, by decide⟩ ⟨by decide, by decide⟩ ⟨by decide, by decide⟩
      ⟨by decide, by decide⟩
  have hQ' : splat binary32 10 10 (uniform binary32 100) 5 5 3
      = some ((List.range 100).map (fun k =>
          if 3 ≤ k / 10 ∧ k / 10 ≤ 7 ∧ 3 ≤ k % 10 ∧ k % 10 ≤ 7
          then (F32.fin 0, F32.fin 1) else (F32.fin 1, F32.fin 0))) := by decide!
  have hlen100 : Q.length = 100 := by rw [hQlen]; rfl
  refine ⟨Q, hQ, hlen100, ?_, ?_⟩
  · intro row col hr0 hr hc0 hc
    have h := hcells row col hr0 (by simpa using hr) hc0 (by simpa using hc)
    have hrep := readCell_grid binary32 10 (uniform binary32 100) (by rfl) row col hr0
      (by simpa using hr) hc0 (by simpa using hc)
    have hval : cellAt binary32 10 (uniform binary32 100) row col = (F32.fin 1, F32.fin 0) := by
      have := cellAt_replicate binary32 10 (F32.fin 1, F32.fin 0) row col hr0
        (by simpa using hr) hc0 (by simpa using hc)
      rw [uniform_binary32]
      exact this
    have hlit : (binary32.lit 0, binary32.lit 1) = (F32.fin 0, F32.fin 1) := by
      show (rn 0, rn 1) = _
      rw [rn_zero, rn_one]
    simp only [Nat.cast_ofNat] at h hrep
    rw [hrep, hval, hlit] at h
    rw [h]
    by_cases hf : 3 ≤ row ∧ row ≤ 7 ∧ 3 ≤ col ∧ col ≤ 7
    · rw [if_pos hf, if_pos (by omega)]
    · rw [if_neg hf, if_neg (by omega)]
  · have hEq : Q = (List.range 100).map (fun k =>
          if 3 ≤ k / 10 ∧ k / 10 ≤ 7 ∧ 3 ≤ k % 10 ∧ k % 10 ≤ 7
          then (F32.fin 0, F32.fin 1) else (F32.fin 1, F32.fin 0)) :=
      Option.some.inj (hQ.symm.trans hQ')
    rw [hEq]
    decide!

/-- C6 on a 2 × 2 binary32 buffer with arbitrary prior content, NaN and an infinity
included. -/
theorem resetConcentration_postcondition_witness :
    ∃ Q, resetConcentration binary32 2 2
        [(F32.fin 0, F32.nan), (F32.fin (1 / 2), F32.pinf), (F32.fin 5, F32.fin 7),
          (F32.fin 0, F32.fin 1)] = some Q ∧
      Q = List.replicate (2 * 2) (binary32.lit 1, binary32.lit 0) ∧
      (resetConcentration binary32 2 2
        [(F32.fin 0, F32.nan), (F32.fin (1 / 2), F32.pinf), (F32.fin 5, F32.fin 7),
          (F32.fin 0, F32.fin 1)]).bind (resetConcentration binary32 2 2)
        = resetConcentration binary32 2 2
          [(F32.fin 0, F32.nan), (F32.fin (1 / 2), F32.pinf), (F32.fin 5, F32.fin 7),
            (F32.fin 0, F32.fin 1)] :=
  resetConcentration_postcondition binary32 2 _ (by rfl)

/-- C9 with width 2 and height 256, on the empty buffer. -/
theorem step_degenerate_grid_witness :
    step binary32 (defaultParams binary32) 2 256 [] = some [] ∧
      ∀ body : Int → Int → Field F32 → Option (Field F32), stepWith body 2 256 [] = some [] :=
  step_degenerate_grid binary32 (defaultParams binary32) 2 256 [] (Or.inl (by decide))

/-- C8 on the 256 × 256 grid of the program, at its last cell `(255, 255)`. -/
theorem addressing_square_witness :
    0 ≤ cellIndex 256 255 255 ∧ cellIndex 256 255 255 < 256 * 256 ∧
    (∀ (α : Type) (field : Field α), field.length = 256 * 256 →
      ∃ cell, readCell field (cellIndex 256 255 255) = some cell) ∧
    (∀ row' col' : Int, 0 ≤ row' → row' < 256 → 0 ≤ col' → col' < 256 →
      cellIndex 256 255 255 = cellIndex 256 row' col' → 255 = row' ∧ 255 = col') :=
  addressing_square 256 255 255 (by decide) (by decide) (by decide) (by decide)

end ReactionDiffusion
